import Mathlib

/-!
Verification of the ORBIT notification-bell text pipeline
(`client/src/components/Header.tsx`): the JSON-block extractor, the
equipment-alert parser, the display sanitizer and the alert reconciler.
Strings are embedded as `List Char`; each definition mirrors the
corresponding TypeScript source function.
-/

namespace Orbit

/-- Strings of the embedded program. -/
abbrev Str := List Char

/-- JavaScript `\s` / `String.prototype.trim` whitespace (the common code
points: space, tab, LF, VT, FF, CR, NBSP). -/
def isJsWs (c : Char) : Bool :=
  c == ' ' || c == '\t' || c == '\n' || c == '\x0b' || c == '\x0c' ||
  c == '\r' || c == ' '

/-- ASCII lower-casing, as `String.prototype.toLowerCase` acts on the
ASCII inputs of this pipeline. -/
def lowerChar (c : Char) : Char :=
  if 'A' ≤ c ∧ c ≤ 'Z' then Char.ofNat (c.toNat + 32) else c

/-- `toLowerCase` on a whole string. -/
def lowerStr (s : Str) : Str := s.map lowerChar

/-- `String.prototype.trim`. -/
def trimStr (s : Str) : Str :=
  ((s.dropWhile isJsWs).reverse.dropWhile isJsWs).reverse

/-- First index at or after which `pat` occurs in the remaining string,
counting from `i`; backing for JS `indexOf(pat)`. -/
def firstIdxSubFrom (pat : Str) : Str → Nat → Option Nat
  | [], i => if pat.isEmpty then some i else none
  | c :: rest, i =>
    if pat.isPrefixOf (c :: rest) then some i
    else firstIdxSubFrom pat rest (i + 1)

/-- JS `text.indexOf(pat)` (as an `Option` instead of `-1`). -/
def indexOfSub (s pat : Str) : Option Nat := firstIdxSubFrom pat s 0

/-- JS `text.includes(pat)`. -/
def containsSub (s pat : Str) : Bool := (indexOfSub s pat).isSome

/-- Index of the first occurrence of character `c`. -/
def firstIdxChar : Str → Char → Option Nat
  | [], _ => none
  | x :: rest, c => if x = c then some 0 else (firstIdxChar rest c).map (· + 1)

/-- JS `text.indexOf(c, start)`. -/
def idxOfCharFrom (s : Str) (c : Char) (start : Nat) : Option Nat :=
  (firstIdxChar (s.drop start) c).map (· + start)

/-- JS `text.lastIndexOf(c, upTo)`: last index `≤ upTo` holding `c`. -/
def lastIdxCharUpTo (s : Str) (c : Char) (upTo : Nat) : Option Nat :=
  let pre := s.take (upTo + 1)
  (firstIdxChar pre.reverse c).map (fun j => pre.length - 1 - j)

/-- JS `s.replace(pat, repl)` for a literal (non-regex, non-global)
pattern: only the first occurrence is replaced. -/
def replaceFirstSub (s pat repl : Str) : Str :=
  match indexOfSub s pat with
  | none => s
  | some i => s.take i ++ repl ++ s.drop (i + pat.length)

/-- Fuelled worker for global literal replacement. -/
def replaceAllSubFuel : Nat → Str → Str → Str → Str
  | 0, s, _, _ => s
  | fuel + 1, s, pat, repl =>
    if pat.isEmpty then s
    else
      match indexOfSub s pat with
      | none => s
      | some i =>
          s.take i ++ repl ++ replaceAllSubFuel fuel (s.drop (i + pat.length)) pat repl

/-- JS `s.replace(/pat/g, repl)` for a literal pattern: left-to-right,
non-overlapping, replacements are not rescanned. -/
def replaceAllSub (s pat repl : Str) : Str :=
  replaceAllSubFuel (s.length + 1) s pat repl

/-- Split on single-character separators chosen by `p` (JS
`split(/[...]/)` where the class matches one character per separator). -/
def splitOnPred : Str → (Char → Bool) → Str → List Str
  | [], _, acc => [acc.reverse]
  | c :: rest, p, acc =>
    if p c then acc.reverse :: splitOnPred rest p [] else splitOnPred rest p (c :: acc)

/-- Fuelled worker for splitting on maximal separator runs. -/
def splitRunsFuel : Nat → Str → (Char → Bool) → Str → List Str
  | 0, s, _, acc => [(acc.reverse ++ s)]
  | fuel + 1, s, p, acc =>
    match s with
    | [] => [acc.reverse]
    | c :: rest =>
      if p c then acc.reverse :: splitRunsFuel fuel (rest.dropWhile p) p []
      else splitRunsFuel fuel rest p (c :: acc)

/-- JS `split(/[...]+/)`: separators are maximal runs of class characters. -/
def splitRuns (s : Str) (p : Char → Bool) : List Str :=
  splitRunsFuel (s.length + 1) s p []

/-- `split('\n')[0]` as used for the dedup key's first line. -/
def firstLine (s : Str) : Str := s.takeWhile (fun c => !(c == '\n'))

/-- JS `a || b` on strings: `b` when `a` is empty (falsy), else `a`. -/
def jsOr (a b : Str) : Str := if a.isEmpty then b else a

/-! ### The JSON-block extractor (Header.tsx 55-76)

`extractJsonAroundKey(text, key)`: find the first occurrence of `key`;
take the first opening brace at or after that index (falling back to the
last opening brace before it); from that brace scan forward tracking
brace depth and return the substring up to the brace closing it. -/

/-- The forward scan of `extractJsonAroundKey` (source lines 64-74): given
the text from the chosen opening brace on and the current depth, the
length of the segment ending at the brace that brings the depth to 0. -/
def braceScanLen : Str → Int → Option Nat
  | [], _ => none
  | c :: rest, depth =>
    if c = '\x7b' then (braceScanLen rest (depth + 1)).map (· + 1)
    else if c = '\x7d' then
      if depth - 1 = 0 then some 1
      else (braceScanLen rest (depth - 1)).map (· + 1)
    else (braceScanLen rest depth).map (· + 1)

/-- The opening-brace choice of `extractJsonAroundKey` (source lines
59-62): the first `\x7b` at or after the key's index, else the last one
before it. -/
def chooseOpenIdx (text : Str) (idx : Nat) : Option Nat :=
  match idxOfCharFrom text '\x7b' idx with
  | some o => some o
  | none => lastIdxCharUpTo text '\x7b' idx

/-- Source: `extractJsonAroundKey` (Header.tsx 55-76). -/
def extractJsonAroundKey (text key : Str) : Option Str :=
  match indexOfSub text key with
  | none => none
  | some idx =>
    match chooseOpenIdx text idx with
    | none => none
    | some o => (braceScanLen (text.drop o) 0).map (fun n => (text.drop o).take n)

/-- Signed brace depth contribution of a string. -/
def braceDelta : Str → Int
  | [] => 0
  | c :: rest =>
    (if c = '\x7b' then (1 : Int) else if c = '\x7d' then -1 else 0) + braceDelta rest

/-! ### Soundness of the brace-depth scan -/

theorem braceDelta_nil : braceDelta [] = 0 := rfl

theorem braceDelta_cons (c : Char) (t : Str) :
    braceDelta (c :: t) =
      (if c = '\x7b' then (1 : Int) else if c = '\x7d' then -1 else 0) + braceDelta t := rfl

theorem braceDelta_open (t : Str) : braceDelta ('\x7b' :: t) = 1 + braceDelta t := by
  rw [braceDelta_cons, if_pos rfl]

theorem braceDelta_close (t : Str) : braceDelta ('\x7d' :: t) = -1 + braceDelta t := by
  rw [braceDelta_cons, if_neg (by decide), if_pos rfl]

theorem braceDelta_other (c : Char) (t : Str) (h1 : ¬(c = '\x7b')) (h2 : ¬(c = '\x7d')) :
    braceDelta (c :: t) = braceDelta t := by
  rw [braceDelta_cons, if_neg h1, if_neg h2]
  omega

theorem take_getLast_close (c : Char) (rest : Str) (n₁ : Nat) (h1 : 1 ≤ n₁)
    (h2 : n₁ ≤ rest.length) (h5 : (rest.take n₁).getLast? = some '\x7d') :
    ((c :: rest).take (n₁ + 1)).getLast? = some '\x7d' := by
  have hne : rest.take n₁ ≠ [] := by
    apply List.ne_nil_of_length_pos
    rw [List.length_take]
    omega
  obtain ⟨y, ys, hys⟩ := List.exists_cons_of_ne_nil hne
  rw [List.take_succ_cons, hys, List.getLast?_cons_cons]
  rw [hys] at h5; exact h5

theorem braceScanLen_sound :
    ∀ (l : Str) (d : Int) (n : Nat), 1 ≤ d → braceScanLen l d = some n →
      1 ≤ n ∧ n ≤ l.length ∧ d + braceDelta (l.take n) = 0 ∧
      (∀ m, m < n → 1 ≤ d + braceDelta (l.take m)) ∧
      (l.take n).getLast? = some '\x7d' := by
  intro l
  induction l with
  | nil => intro d n _ h; simp [braceScanLen] at h
  | cons c rest ih =>
    intro d n hd h
    simp only [braceScanLen] at h
    by_cases hc : c = '\x7b'
    · rw [if_pos hc] at h
      obtain ⟨n₁, h₁, rfl⟩ := Option.map_eq_some'.mp h
      obtain ⟨g1, g2, g3, g4, g5⟩ := ih (d + 1) n₁ (by omega) h₁
      refine ⟨by omega, by simpa using Nat.succ_le_succ g2, ?_, ?_, ?_⟩
      · rw [List.take_succ_cons, hc, braceDelta_open]
        omega
      · intro m hm
        match m with
        | 0 => simpa [braceDelta_nil] using hd
        | m' + 1 =>
          have := g4 m' (by omega)
          rw [List.take_succ_cons, hc, braceDelta_open]
          omega
      · exact take_getLast_close c rest n₁ g1 g2 g5
    · rw [if_neg hc] at h
      by_cases hc' : c = '\x7d'
      · rw [if_pos hc'] at h
        by_cases hd1 : d - 1 = 0
        · rw [if_pos hd1] at h
          obtain rfl : n = 1 := (Option.some_inj.mp h).symm
          refine ⟨le_refl 1, by simp, ?_, ?_, ?_⟩
          · rw [List.take_succ_cons, hc', List.take_zero, braceDelta_close, braceDelta_nil]
            omega
          · intro m hm
            match m with
            | 0 => simpa [braceDelta_nil] using hd
          · rw [List.take_succ_cons, List.take_zero, hc']
            rfl
        · rw [if_neg hd1] at h
          obtain ⟨n₁, h₁, rfl⟩ := Option.map_eq_some'.mp h
          obtain ⟨g1, g2, g3, g4, g5⟩ := ih (d - 1) n₁ (by omega) h₁
          refine ⟨by omega, by simpa using Nat.succ_le_succ g2, ?_, ?_, ?_⟩
          · rw [List.take_succ_cons, hc', braceDelta_close]
            omega
          · intro m hm
            match m with
            | 0 => simpa [braceDelta_nil] using hd
            | m' + 1 =>
              have := g4 m' (by omega)
              rw [List.take_succ_cons, hc', braceDelta_close]
              omega
          · exact take_getLast_close c rest n₁ g1 g2 g5
      · rw [if_neg hc'] at h
        obtain ⟨n₁, h₁, rfl⟩ := Option.map_eq_some'.mp h
        obtain ⟨g1, g2, g3, g4, g5⟩ := ih d n₁ hd h₁
        refine ⟨by omega, by simpa using Nat.succ_le_succ g2, ?_, ?_, ?_⟩
        · rw [List.take_succ_cons, braceDelta_other c _ hc hc']
          omega
        · intro m hm
          match m with
          | 0 => simpa [braceDelta_nil] using hd
          | m' + 1 =>
            have := g4 m' (by omega)
            rw [List.take_succ_cons, braceDelta_other c _ hc hc']
            omega
        · exact take_getLast_close c rest n₁ g1 g2 g5

/-! ### Where the index searches point -/

theorem firstIdxChar_getElem :
    ∀ (s : Str) (c : Char) (j : Nat), firstIdxChar s c = some j → s[j]? = some c := by
  intro s
  induction s with
  | nil => intro c j h; simp [firstIdxChar] at h
  | cons x rest ih =>
    intro c j h
    simp only [firstIdxChar] at h
    by_cases hx : x = c
    · rw [if_pos hx] at h
      obtain rfl : j = 0 := (Option.some_inj.mp h).symm
      simp [hx]
    · rw [if_neg hx] at h
      obtain ⟨j₁, h₁, rfl⟩ := Option.map_eq_some'.mp h
      simpa using ih c j₁ h₁

theorem getElem_some_drop :
    ∀ (s : Str) (o : Nat) (c : Char), s[o]? = some c → s.drop o = c :: s.drop (o + 1) := by
  intro s
  induction s with
  | nil => intro o c h; simp at h
  | cons x rest ih =>
    intro o c h
    match o with
    | 0 => simp at h; simp [h]
    | o' + 1 =>
      simp only [List.getElem?_cons_succ] at h
      simpa [List.drop_succ_cons] using ih o' c h

theorem idxOfCharFrom_drop (s : Str) (c : Char) (start o : Nat)
    (h : idxOfCharFrom s c start = some o) :
    s.drop o = c :: s.drop (o + 1) := by
  unfold idxOfCharFrom at h
  obtain ⟨j, hj, rfl⟩ := Option.map_eq_some'.mp h
  have hd := firstIdxChar_getElem _ _ _ hj
  rw [List.getElem?_drop] at hd
  exact getElem_some_drop _ _ _ (by rwa [Nat.add_comm start j] at hd)

theorem lastIdxCharUpTo_drop (s : Str) (c : Char) (upTo o : Nat)
    (h : lastIdxCharUpTo s c upTo = some o) :
    s.drop o = c :: s.drop (o + 1) := by
  unfold lastIdxCharUpTo at h
  obtain ⟨j, hj, rfl⟩ := Option.map_eq_some'.mp h
  have hj' := firstIdxChar_getElem _ _ _ hj
  have hjlt : j < (s.take (upTo + 1)).reverse.length := by
    by_contra hge
    rw [List.getElem?_eq_none (by omega)] at hj'
    exact Option.noConfusion hj'
  rw [List.length_reverse] at hjlt
  rw [List.getElem?_reverse (by omega)] at hj'
  have hm : (s.take (upTo + 1)).length - 1 - j < (s.take (upTo + 1)).length := by omega
  rw [List.getElem?_take_of_lt (by
    have hle : (s.take (upTo + 1)).length ≤ upTo + 1 := List.length_take_le _ _
    omega)] at hj'
  exact getElem_some_drop _ _ _ hj'

theorem chooseOpenIdx_drop (text : Str) (idx o : Nat)
    (h : chooseOpenIdx text idx = some o) :
    text.drop o = '\x7b' :: text.drop (o + 1) := by
  unfold chooseOpenIdx at h
  cases hfirst : idxOfCharFrom text '\x7b' idx with
  | some o' =>
    rw [hfirst] at h
    obtain rfl : o = o' := (Option.some_inj.mp h).symm
    exact idxOfCharFrom_drop _ _ _ _ hfirst
  | none =>
    rw [hfirst] at h
    exact lastIdxCharUpTo_drop _ _ _ _ h

/-! ### Claim C1: the JSON-block extractor -/

/-- The spec's running example text,
`prefix \x7b"items":\x7b"a":\x7b"b":1\x7d\x7d\x7d suffix`. -/
def exText : Str := ("prefix \x7b\"items\":\x7b\"a\":\x7b\"b\":1\x7d\x7d\x7d suffix").toList

/-- The key used in the spec's example. -/
def exKey : Str := ("\"items\"").toList

/-- The block the extractor actually returns on the example: the value
object following the key. -/
def exInner : Str := ("\x7b\"a\":\x7b\"b\":1\x7d\x7d").toList

/-- The enclosing object the claim says the example returns. -/
def exOuter : Str := ("\x7b\"items\":\x7b\"a\":\x7b\"b\":1\x7d\x7d\x7d").toList

/-- C1, counterexample: on the claim's own example input the extractor
returns the inner value block, not the enclosing object that the claim
asserts, so the claim as stated is false.  (The first opening brace at or
after the key's index is the one after the colon.) -/
theorem c1_extract_example_refuted :
    extractJsonAroundKey exText exKey = some exInner ∧ exInner ≠ exOuter :=
  ⟨by decide, by decide⟩

/-- C1 (amended): `extractJsonAroundKey` finds the first occurrence of the
key, takes the nearest opening brace at or after that index (falling back
to the nearest one before it), scans forward tracking brace depth, and
returns exactly the contiguous block from that opening brace to the brace
closing it at depth 0 (the block is brace-balanced and every proper
non-empty prefix stays at positive depth); it returns null when the key
is absent or no balanced block exists.  On the spec's example the chosen
brace is the one following the key, so the value object
`\x7b"a":\x7b"b":1\x7d\x7d` is returned, not the enclosing object. -/
theorem c1_extract_amended :
    (extractJsonAroundKey exText exKey = some exInner) ∧
    (∀ text key, indexOfSub text key = none → extractJsonAroundKey text key = none) ∧
    (∀ text key s, extractJsonAroundKey text key = some s →
      s <:+: text ∧ s.head? = some '\x7b' ∧ s.getLast? = some '\x7d' ∧
      braceDelta s = 0 ∧ ∀ m, 0 < m → m < s.length → 1 ≤ braceDelta (s.take m)) := by
  refine ⟨by decide, ?_, ?_⟩
  · intro text key h
    unfold extractJsonAroundKey
    rw [h]
  · intro text key s h
    unfold extractJsonAroundKey at h
    cases hidx : indexOfSub text key with
    | none => rw [hidx] at h; exact absurd h (by simp)
    | some idx =>
      rw [hidx] at h
      dsimp only at h
      cases hopn : chooseOpenIdx text idx with
      | none => rw [hopn] at h; exact absurd h (by simp)
      | some o =>
        rw [hopn] at h
        dsimp only at h
        obtain ⟨n, hscan, rfl⟩ := Option.map_eq_some'.mp h
        have hdropo : text.drop o = '\x7b' :: text.drop (o + 1) :=
          chooseOpenIdx_drop text idx o hopn
        rw [hdropo] at hscan
        simp only [braceScanLen, if_pos rfl] at hscan
        obtain ⟨n₁, h₁, rfl⟩ := Option.map_eq_some'.mp hscan
        obtain ⟨g1, g2, g3, g4, g5⟩ := braceScanLen_sound _ 1 n₁ (le_refl 1) h₁
        rw [hdropo]
        have hlenTail : n₁ + 1 ≤ ('\x7b' :: text.drop (o + 1)).length := by
          simp only [List.length_cons]
          omega
        refine ⟨?_, ?_, ?_, ?_, ?_⟩
        · have hp : ('\x7b' :: text.drop (o + 1)).take (n₁ + 1) <+:
              '\x7b' :: text.drop (o + 1) := List.take_prefix _ _
          have hsuf : '\x7b' :: text.drop (o + 1) <:+ text := by
            rw [← hdropo]; exact List.drop_suffix o text
          exact hp.isInfix.trans hsuf.isInfix
        · rw [List.take_succ_cons]
          rfl
        · exact take_getLast_close _ _ _ g1 g2 g5
        · rw [List.take_succ_cons, braceDelta_open]
          omega
        · intro m hm0 hmlt
          match m with
          | m' + 1 =>
            rw [List.length_take, List.length_cons] at hmlt
            have hm' : m' < n₁ := by omega
            have hval := g4 m' hm'
            rw [List.take_succ_cons, List.take_succ_cons, List.take_take,
              Nat.min_eq_left (Nat.le_of_lt hm'), braceDelta_open]
            omega

/-- Witness for the amended C1 theorem: its key-absent clause applied at a
concrete input. -/
theorem c1_extract_amended_witness :
    extractJsonAroundKey (("abc").toList) (("zz").toList) = none :=
  c1_extract_amended.2.1 (("abc").toList) (("zz").toList) (by decide)

/-! ### JSON values and `JSON.parse` -/

/-- JSON values as produced by `JSON.parse`.  Numbers keep their source
lexeme (none of the modelled code does arithmetic on them). -/
inductive JValue where
  | jnull : JValue
  | jbool : Bool → JValue
  | jnum : Str → JValue
  | jstr : Str → JValue
  | jarr : List JValue → JValue
  | jobj : List (Str × JValue) → JValue
  deriving Inhabited

/-- The one error the embedded fallible operations raise. -/
inductive JsError where
  | syntaxError : JsError
  deriving DecidableEq, Repr

/-- JSON source whitespace. -/
def isJsonWs (c : Char) : Bool := c == ' ' || c == '\t' || c == '\n' || c == '\r'

def skipWs (s : Str) : Str := s.dropWhile isJsonWs

def isDigit (c : Char) : Bool := '0' ≤ c && c ≤ '9'

def isHexDigit (c : Char) : Bool :=
  isDigit c || ('a' ≤ c && c ≤ 'f') || ('A' ≤ c && c ≤ 'F')

def hexVal (c : Char) : Nat :=
  if isDigit c then c.toNat - '0'.toNat
  else if 'a' ≤ c && c ≤ 'f' then c.toNat - 'a'.toNat + 10
  else c.toNat - 'A'.toNat + 10

/-- Lexes a JSON number, returning its lexeme and the rest. -/
def parseNumLex (s : Str) : Option (Str × Str) :=
  let (sign, s1) : Str × Str := match s with
    | '-' :: t => (['-'], t)
    | _ => ([], s)
  match s1 with
  | [] => none
  | c :: _ =>
    if !(isDigit c) then none
    else
      let (ip, s2) : Str × Str :=
        if c = '0' then (['0'], s1.drop 1)
        else (s1.takeWhile isDigit, s1.dropWhile isDigit)
      let (fp, s3) : Str × Str := match s2 with
        | '.' :: t =>
          if (t.takeWhile isDigit).isEmpty then ([], '.' :: t)
          else ('.' :: t.takeWhile isDigit, t.dropWhile isDigit)
        | _ => ([], s2)
      -- a dot not followed by digits is a malformed number
      if s3.head? = some '.' then none
      else
        let (ep, s4) : Str × Str := match s3 with
          | e :: t =>
            if e = 'e' ∨ e = 'E' then
              let (sg, t1) : Str × Str := match t with
                | '+' :: u => (['+'], u)
                | '-' :: u => (['-'], u)
                | _ => ([], t)
              if (t1.takeWhile isDigit).isEmpty then ([], s3)
              else (e :: (sg ++ t1.takeWhile isDigit), t1.dropWhile isDigit)
            else ([], s3)
          | _ => ([], s3)
        some (sign ++ ip ++ fp ++ ep, s4)

/-- Lexes the body of a JSON string literal (the opening quote already
consumed). -/
def parseStrLitFuel : Nat → Str → Option (Str × Str)
  | 0, _ => none
  | fuel + 1, s =>
    match s with
    | [] => none
    | '"' :: rest => some ([], rest)
    | '\\' :: e :: rest =>
      let cont (c : Char) (r : Str) : Option (Str × Str) :=
        (parseStrLitFuel fuel r).map (fun p => (c :: p.1, p.2))
      if e = '"' then cont '"' rest
      else if e = '\\' then cont '\\' rest
      else if e = '/' then cont '/' rest
      else if e = 'b' then cont '\x08' rest
      else if e = 'f' then cont '\x0c' rest
      else if e = 'n' then cont '\n' rest
      else if e = 'r' then cont '\r' rest
      else if e = 't' then cont '\t' rest
      else if e = 'u' then
        match rest with
        | h1 :: h2 :: h3 :: h4 :: rest' =>
          if isHexDigit h1 && isHexDigit h2 && isHexDigit h3 && isHexDigit h4 then
            cont (Char.ofNat
              (((hexVal h1 * 16 + hexVal h2) * 16 + hexVal h3) * 16 + hexVal h4)) rest'
          else none
        | _ => none
      else none
    | c :: rest =>
      if c.toNat < 32 then none
      else (parseStrLitFuel fuel rest).map (fun p => (c :: p.1, p.2))

/-- Insert into a JS object: a repeated key overwrites in place, a new key
is appended (JS property insertion order). -/
def objInsert (fields : List (Str × JValue)) (k : Str) (v : JValue) :
    List (Str × JValue) :=
  if fields.any (fun p => p.1 = k) then
    fields.map (fun p => if p.1 = k then (k, v) else p)
  else fields ++ [(k, v)]

mutual

/-- Recursive-descent `JSON.parse` value parser (fuelled). -/
def parseValFuel : Nat → Str → Option (JValue × Str)
  | 0, _ => none
  | fuel + 1, s0 =>
    let s := skipWs s0
    if ("null").toList.isPrefixOf s then some (.jnull, s.drop 4)
    else if ("true").toList.isPrefixOf s then some (.jbool true, s.drop 4)
    else if ("false").toList.isPrefixOf s then some (.jbool false, s.drop 5)
    else
      match s with
      | '"' :: rest => (parseStrLitFuel (rest.length + 1) rest).map (fun p => (.jstr p.1, p.2))
      | '\x7b' :: rest =>
        let s1 := skipWs rest
        (match s1 with
         | '\x7d' :: r2 => some (.jobj [], r2)
         | _ => parseMembersFuel fuel rest [])
      | '[' :: rest =>
        let s1 := skipWs rest
        (match s1 with
         | ']' :: r2 => some (.jarr [], r2)
         | _ => parseElemsFuel fuel rest [])
      | _ => (parseNumLex s).map (fun p => (.jnum p.1, p.2))

/-- Object members: `"key" : value (, ...)* \x7d`. -/
def parseMembersFuel : Nat → Str → List (Str × JValue) → Option (JValue × Str)
  | 0, _, _ => none
  | fuel + 1, s, acc =>
    match skipWs s with
    | '"' :: rest =>
      match parseStrLitFuel (rest.length + 1) rest with
      | none => none
      | some (k, s2) =>
        match skipWs s2 with
        | ':' :: s4 =>
          match parseValFuel fuel s4 with
          | none => none
          | some (v, s5) =>
            let acc' := objInsert acc k v
            (match skipWs s5 with
             | ',' :: s7 => parseMembersFuel fuel s7 acc'
             | '\x7d' :: s7 => some (.jobj acc', s7)
             | _ => none)
        | _ => none
    | _ => none

/-- Array elements: `value (, value)* ]`. -/
def parseElemsFuel : Nat → Str → List JValue → Option (JValue × Str)
  | 0, _, _ => none
  | fuel + 1, s, acc =>
    match parseValFuel fuel s with
    | none => none
    | some (v, s1) =>
      (match skipWs s1 with
       | ',' :: s2 => parseElemsFuel fuel s2 (acc ++ [v])
       | ']' :: s2 => some (.jarr (acc ++ [v]), s2)
       | _ => none)

end

/-- `JSON.parse`: whole-input parse or a syntax error. -/
def jsonParse (s : Str) : Except JsError JValue :=
  match parseValFuel (2 * s.length + 8) s with
  | none => Except.error .syntaxError
  | some (v, rest) =>
    if (skipWs rest).isEmpty then Except.ok v else Except.error .syntaxError

/-- Numeric-zero test on a number lexeme (for JS truthiness). -/
def isZeroLex (lex : Str) : Bool :=
  ((lex.takeWhile (fun c => !(c == 'e' || c == 'E'))).filter isDigit).all (· == '0')

/-- JS truthiness of a JSON value (objects and arrays are always truthy). -/
def jvTruthy : JValue → Bool
  | .jnull => false
  | .jbool b => b
  | .jnum lex => !(isZeroLex lex)
  | .jstr s => !s.isEmpty
  | .jarr _ => true
  | .jobj _ => true

/-- JS truthiness where `none` is `undefined`. -/
def jvTruthyOpt : Option JValue → Bool
  | none => false
  | some v => jvTruthy v

/-- `typeof v === 'object'` (arrays and `null` are also `'object'`). -/
def jvTypeofObject : JValue → Bool
  | .jnull => true
  | .jarr _ => true
  | .jobj _ => true
  | _ => false

/-- Decimal numeral of an index, for `Object.keys` of an array. -/
def natToDecStr (n : Nat) : Str := (Nat.repr n).toList

/-- Property access `v[k]` (`none` = `undefined`). -/
def jvGet (v : JValue) (k : Str) : Option JValue :=
  match v with
  | .jobj fields => (fields.find? (fun p => p.1 = k)).map (·.2)
  | .jarr xs =>
    match (List.range xs.length).find? (fun i => natToDecStr i = k) with
    | some i => xs[i]?
    | none => none
  | _ => none

/-- `Object.keys`. -/
def jvKeys : JValue → List Str
  | .jobj fields => fields.map (·.1)
  | .jarr xs => (List.range xs.length).map natToDecStr
  | _ => []

mutual

/-- `String(v)`: JS stringification (arrays join their elements with
commas, plain objects print as `[object Object]`). -/
def jsStringOf : JValue → Str
  | .jnull => ("null").toList
  | .jbool true => ("true").toList
  | .jbool false => ("false").toList
  | .jnum lex => lex
  | .jstr s => s
  | .jarr xs => jsStringOfList xs
  | .jobj _ => ("[object Object]").toList

/-- `Array.prototype.join(',')` over stringified elements. -/
def jsStringOfList : List JValue → Str
  | [] => []
  | [v] => jsStringOf v
  | v :: rest => jsStringOf v ++ [','] ++ jsStringOfList rest

end

/-- `String(v || '')`: falsy values stringify to the empty string. -/
def jsStringOr (v : JValue) : Str := if jvTruthy v then jsStringOf v else []

/-! ### The tri-state status classifier -/

/-- Per-item equipment status. -/
inductive EqStatus where
  | prepared
  | not_available
  | pending
  deriving DecidableEq, Repr

/-- The tri-state classifier (Header.tsx 221-222, repeated verbatim at
233-234 and 245-247): lower-case the stringified value and compare
against the two recognized vocabularies; anything else is pending. -/
def classifyOfString (s : Str) : EqStatus :=
  let val := lowerStr s
  if val = ("prepared").toList ∨ val = ("true").toList ∨ val = ("yes").toList then
    EqStatus.prepared
  else if val = ("not available").toList ∨ val = ("not_available").toList ∨
      val = ("false").toList ∨ val = ("no").toList then
    EqStatus.not_available
  else EqStatus.pending

/-- The classifier as applied to a JSON value at Header.tsx 221-222:
`String(rawVal || '').toLowerCase()` then the comparison chain. -/
def classifyJv (v : JValue) : EqStatus := classifyOfString (jsStringOr v)

/-! ### A small backtracking regex engine

The pipeline's regular expressions are transcribed into this AST and
matched with JavaScript semantics: leftmost match, left-first
alternation, greedy/lazy repetition by backtracking, capture groups and
backreferences.  The matcher is in continuation-passing style and
fuelled; the fuel bounds the recursion depth, which is linear in pattern
size times input length. -/

inductive RE where
  | eps : RE
  | cls : (Char → Bool) → RE
  | lit : Str → Bool → RE
  | seq : RE → RE → RE
  | alt : RE → RE → RE
  | rep : RE → Nat → Option Nat → Bool → RE
  | grp : Nat → RE → RE
  | bref : Nat → RE
  | bos : RE
  | eos : RE
  | wb : RE

/-- Recorded capture spans: group index, start, stop (latest first). -/
abbrev Caps := List (Nat × Nat × Nat)

def capGet (caps : Caps) (n : Nat) : Option (Nat × Nat) :=
  (caps.find? (fun t => t.1 == n)).map (fun t => t.2)

/-- `\w` for `\b` boundaries. -/
def isWordChar (c : Char) : Bool :=
  ('a' ≤ c && c ≤ 'z') || ('A' ≤ c && c ≤ 'Z') || isDigit c || c == '_'

def wordAt (s : Str) (i : Nat) : Bool :=
  match s[i]? with
  | some c => isWordChar c
  | none => false

def boundaryAt (s : Str) (pos : Nat) : Bool :=
  let before := if pos = 0 then false else wordAt s (pos - 1)
  before != wordAt s pos

/-- Does `l` occur literally at the head of the input remainder? -/
def litCheck : Str → Str → Bool → Bool
  | _, [], _ => true
  | [], _ :: _, _ => false
  | c :: s, d :: l, ci =>
    (if ci then lowerChar c == lowerChar d else c == d) && litCheck s l ci

def reSize : RE → Nat
  | .eps => 1
  | .cls _ => 1
  | .lit l _ => l.length + 1
  | .seq a b => reSize a + reSize b + 1
  | .alt a b => reSize a + reSize b + 1
  | .rep r _ _ _ => reSize r + 2
  | .grp _ r => reSize r + 1
  | .bref _ => 1
  | .bos => 1
  | .eos => 1
  | .wb => 1

def subStr (s : Str) (a b : Nat) : Str := (s.drop a).take (b - a)

/-- The backtracking matcher.  `k` is the continuation receiving the
position and captures after `re`; priority of alternatives follows
JavaScript (left alternative first, greedy tries longer first, lazy
shorter first, an empty repetition iteration is skipped). -/
def mrun (s : Str) : Nat → RE → Nat → Caps →
    (Nat → Caps → Option (Nat × Caps)) → Option (Nat × Caps)
  | 0, _, _, _, _ => none
  | fuel + 1, re, pos, caps, k =>
    match re with
    | .eps => k pos caps
    | .cls p =>
      match s[pos]? with
      | some c => if p c then k (pos + 1) caps else none
      | none => none
    | .lit l ci =>
      if litCheck (s.drop pos) l ci then k (pos + l.length) caps else none
    | .seq a b => mrun s fuel a pos caps (fun p c => mrun s fuel b p c k)
    | .alt a b =>
      match mrun s fuel a pos caps k with
      | some r => some r
      | none => mrun s fuel b pos caps k
    | .grp n r => mrun s fuel r pos caps (fun p c => k p ((n, pos, p) :: c))
    | .bref n =>
      match capGet caps n with
      | none => k pos caps
      | some (st, en) =>
        let l := subStr s st en
        if litCheck (s.drop pos) l false then k (pos + l.length) caps else none
    | .bos => if pos == 0 then k pos caps else none
    | .eos => if pos == s.length then k pos caps else none
    | .wb => if boundaryAt s pos then k pos caps else none
    | .rep r lo hi g =>
      match lo with
      | l + 1 =>
        mrun s fuel r pos caps (fun p c =>
          mrun s fuel (.rep r l (hi.map (· - 1)) g) p c k)
      | 0 =>
        match hi with
        | some 0 => k pos caps
        | _ =>
          let step := fun (kk : Nat → Caps → Option (Nat × Caps)) =>
            mrun s fuel r pos caps (fun p c =>
              if p == pos then none
              else mrun s fuel (.rep r 0 (hi.map (· - 1)) g) p c kk)
          if g then
            match step k with
            | some res => some res
            | none => k pos caps
          else
            match k pos caps with
            | some res => some res
            | none => step k

def reFuel (re : RE) (s : Str) : Nat := (s.length + 2) * (reSize re + 6) + 64

/-- Worker for the leftmost search: try successive start positions. -/
def reFindFromAux : Nat → RE → Str → Nat → Option (Nat × Nat × Caps)
  | 0, _, _, _ => none
  | fuel + 1, re, s, pos =>
    match mrun s (reFuel re s) re pos [] (fun p c => some (p, c)) with
    | some (e, caps) => some (pos, e, caps)
    | none => if s.length ≤ pos then none else reFindFromAux fuel re s (pos + 1)

/-- Leftmost match at or after `start`: `(matchStart, matchEnd, captures)`. -/
def reFindFrom (re : RE) (s : Str) (start : Nat) : Option (Nat × Nat × Caps) :=
  if s.length < start then none
  else reFindFromAux (s.length + 1 - start) re s start

/-- JS `regex.test(s)` / non-global `s.match(re) !== null`. -/
def reTest (re : RE) (s : Str) : Bool := (reFindFrom re s 0).isSome

/-- All matches of a global regex (non-overlapping, left to right; an
empty match advances one position). -/
def reMatchAllAux : Nat → RE → Str → Nat → List (Nat × Nat × Caps)
  | 0, _, _, _ => []
  | fuel + 1, re, s, pos =>
    match reFindFrom re s pos with
    | none => []
    | some (b, e, caps) =>
      (b, e, caps) :: reMatchAllAux fuel re s (if e == b then e + 1 else e)

def reMatchAll (re : RE) (s : Str) : List (Nat × Nat × Caps) :=
  reMatchAllAux (s.length + 2) re s 0

/-- Worker for global replacement; `f` maps the matched slice and its
captures to the replacement. -/
def reReplaceAllAux : Nat → RE → Str → (Str → Caps → Str) → Nat → Str
  | 0, _, s, _, pos => s.drop pos
  | fuel + 1, re, s, f, pos =>
    match reFindFrom re s pos with
    | none => s.drop pos
    | some (b, e, caps) =>
      subStr s pos b ++ f (subStr s b e) caps ++
        (if e == b then
          (match s[e]? with
           | some c => c :: reReplaceAllAux fuel re s f (e + 1)
           | none => [])
         else reReplaceAllAux fuel re s f e)

/-- JS `s.replace(/re/g, f)`. -/
def reReplaceAll (re : RE) (s : Str) (f : Str → Caps → Str) : Str :=
  reReplaceAllAux (s.length + 2) re s f 0

/-- JS `s.replace(/re/, f)` (first match only). -/
def reReplaceFirst (re : RE) (s : Str) (f : Str → Caps → Str) : Str :=
  match reFindFrom re s 0 with
  | none => s
  | some (b, e, caps) => subStr s 0 b ++ f (subStr s b e) caps ++ s.drop e

/-- Resolve capture group `n` of a match into its text. -/
def capStr (s : Str) (caps : Caps) (n : Nat) : Option Str :=
  (capGet caps n).map (fun p => subStr s p.1 p.2)

/-! Pattern-building shorthand. -/

def reChar (c : Char) : RE := .cls (fun x => x == c)
def reStr (l : Str) : RE := .lit l false
def reStrCi (l : Str) : RE := .lit l true
/-- `.` (no `s` flag): any character but a line terminator. -/
def reDot : RE := .cls (fun c => !(c == '\n' || c == '\r' || c == '\u2028' || c == '\u2029'))
/-- `[\s\S]`. -/
def reAny : RE := .cls (fun _ => true)
def reWs : RE := .cls isJsWs
def star (r : RE) : RE := .rep r 0 none true
def starLazy (r : RE) : RE := .rep r 0 none false
def plus (r : RE) : RE := .rep r 1 none true
def plusLazy (r : RE) : RE := .rep r 1 none false
def opt (r : RE) : RE := .rep r 0 (some 1) true
def seqL (rs : List RE) : RE := rs.foldr RE.seq .eps
def altL : List RE → RE
  | [] => .eps
  | [r] => r
  | r :: rest => .alt r (altL rest)

/-! ### The pipeline's regular expressions, transcribed -/

/-- `[a-zA-Z0-9._%+-]` (email local part). -/
def isEmailLocalChar (c : Char) : Bool :=
  ('a' ≤ c && c ≤ 'z') || ('A' ≤ c && c ≤ 'Z') || isDigit c ||
  c == '.' || c == '_' || c == '%' || c == '+' || c == '-'

/-- `[a-zA-Z0-9.-]` (email domain part). -/
def isEmailDomChar (c : Char) : Bool :=
  ('a' ≤ c && c ≤ 'z') || ('A' ≤ c && c ≤ 'Z') || isDigit c || c == '.' || c == '-'

def isAlpha (c : Char) : Bool := ('a' ≤ c && c ≤ 'z') || ('A' ≤ c && c ≤ 'Z')

/-- `/[a-zA-Z0-9._%+-]+@[a-zA-Z0-9.-]+\.[A-Za-z]\x7b2,\x7d/` — the email
pattern of Header.tsx 394 (and 36/282 inside the title pattern). -/
def emailRE : RE :=
  seqL [plus (.cls isEmailLocalChar), reChar '@', plus (.cls isEmailDomChar),
    reChar '.', .rep (.cls isAlpha) 2 none true]

/-- `[—–-]`: em dash, en dash or hyphen before the title email. -/
def isDashChar (c : Char) : Bool := c == '—' || c == '–' || c == '-'

/-- Header.tsx 36/39/282/283: `/[—–-]\s*(email)\s*$/`. -/
def titleEmailRE : RE :=
  seqL [.cls isDashChar, star reWs, .grp 1 emailRE, star reWs, .eos]

def notQuote (c : Char) : Bool := !(c == '"')

/-- Header.tsx 124: `/"[^\"]+"\s*:\s*"[^\"]+"\s*,?/g`. -/
def quotedPairStripRE : RE :=
  seqL [reChar '"', plus (.cls notQuote), reChar '"', star reWs, reChar ':', star reWs,
    reChar '"', plus (.cls notQuote), reChar '"', star reWs, opt (reChar ',')]

/-- Header.tsx 153: `/"([^\"]+)"\s*:\s*"([^\"]+)"/g`. -/
def quotedPairRE : RE :=
  seqL [reChar '"', .grp 1 (plus (.cls notQuote)), reChar '"', star reWs, reChar ':',
    star reWs, reChar '"', .grp 2 (plus (.cls notQuote)), reChar '"']

/-- `[A-Za-z0-9 &]` (inline label characters). -/
def isLabelChar (c : Char) : Bool :=
  ('a' ≤ c && c ≤ 'z') || ('A' ≤ c && c ≤ 'Z') || isDigit c || c == ' ' || c == '&'

/-- The status alternation of Header.tsx 168/179 (order as written,
including the duplicated `prepared`). -/
def statusAltRE : RE :=
  altL [reStrCi (("prepared").toList), reStrCi (("not_available").toList),
    reStrCi (("not available").toList), reStrCi (("prepared").toList),
    reStrCi (("true").toList), reStrCi (("false").toList),
    reStrCi (("yes").toList), reStrCi (("no").toList)]

/-- Header.tsx 168: `/([A-Za-z0-9 &]+?)\s*[:\-]\s*(status...)/gi`. -/
def inlineLabelStatusRE : RE :=
  seqL [.grp 1 (plusLazy (.cls isLabelChar)), star reWs,
    .cls (fun c => c == ':' || c == '-'), star reWs, .grp 2 statusAltRE]

/-- Header.tsx 132: `/Requested equipment:\s*([^\[]+)/i`. -/
def eqMatchRE : RE :=
  seqL [reStrCi (("Requested equipment:").toList), star reWs,
    .grp 1 (plus (.cls (fun c => !(c == '['))))]

/-- Header.tsx 116: `/Needs:\s*(\x7b[\s\S]*\x7d)/i`. -/
def needsLegacyRE : RE :=
  seqL [reStrCi (("Needs:").toList), star reWs,
    .grp 1 (seqL [reChar '\x7b', star reAny, reChar '\x7d'])]

/-- Header.tsx 205/258: `/.*?others[:\s-]*/i`. -/
def othersMarkerRE : RE :=
  seqL [starLazy reDot, reStrCi (("others").toList),
    star (.cls (fun c => c == ':' || isJsWs c || c == '-'))]

/-- Header.tsx 266: `/Others?:\s*(.*)$/i`. -/
def othersTailRE : RE :=
  seqL [reStrCi (("Other").toList), opt (reStrCi (("s").toList)), reChar ':',
    star reWs, .grp 1 (star reDot), .eos]

/-- Header.tsx 287: `/\s*\[booking:[^\]]+\]/`. -/
def bookingTagRE : RE :=
  seqL [star reWs, reChar '[', reStr (("booking:").toList),
    plus (.cls (fun c => !(c == ']'))), reChar ']']

/-- Header.tsx 287: `/Needs:\s*\x7b[\s\S]*\x7d\s*/i`. -/
def needsRemnantRE : RE :=
  seqL [reStrCi (("Needs:").toList), star reWs, reChar '\x7b', star reAny,
    reChar '\x7d', star reWs]

/-- Header.tsx 287: `/,?\s*Others?:\s*[^,\]]+/i`. -/
def othersFragmentRE : RE :=
  seqL [opt (reChar ','), star reWs, reStrCi (("Other").toList),
    opt (reStrCi (("s").toList)), reChar ':', star reWs,
    plus (.cls (fun c => !(c == ',' || c == ']')))]

/-- Header.tsx 292: `/"items"\s*:\s*(?:\x7b[\s\S]*?\x7d|"[^"]*"|[^\s,;]*)/gi`. -/
def itemsValueRE : RE :=
  seqL [reStrCi (("\"items\"").toList), star reWs, reChar ':', star reWs,
    altL [seqL [reChar '\x7b', starLazy reAny, reChar '\x7d'],
      seqL [reChar '"', star (.cls notQuote), reChar '"'],
      star (.cls (fun c => !(isJsWs c || c == ',' || c == ';')))]]

/-- Header.tsx 294/397: `/items"\s*:\s*/gi`. -/
def itemsQuoteColonRE : RE :=
  seqL [reStrCi (("items\"").toList), star reWs, reChar ':', star reWs]

/-- Header.tsx 294/397: `/"items"/gi`. -/
def itemsQuotedRE : RE := reStrCi (("\"items\"").toList)

/-- Header.tsx 294/397: `/items":/gi`. -/
def itemsColonRE : RE := reStrCi (("items\":").toList)

/-- Header.tsx 397: `/"items"\s*:\s*/gi`. -/
def itemsKeyColonRE : RE :=
  seqL [reStrCi (("\"items\"").toList), star reWs, reChar ':', star reWs]

/-- Header.tsx 126/305: `/\x7d\s*\x7b/g`. -/
def closeOpenBraceRE : RE := seqL [reChar '\x7d', star reWs, reChar '\x7b']

/-- Header.tsx 305/354/412: `/\s\x7b2,\x7d/g`. -/
def multiWsRE : RE := .rep reWs 2 none true

/-- Header.tsx 414: `/[-,:;\s]+$/g`. -/
def trailingSepRE : RE :=
  seqL [plus (.cls (fun c => c == '-' || c == ',' || c == ':' || c == ';' || isJsWs c)),
    .eos]

/-- `\s-\s[^\n]+`, the dash item of Header.tsx 340/400. -/
def dashItemRE : RE :=
  seqL [reWs, reChar '-', reWs, plus (.cls (fun c => !(c == '\n')))]

/-- Header.tsx 400: `/(\s-\s[^\n]+)(?:\s-\s[^\n]+)\x7b1,\x7d/g`. -/
def dashListRE : RE := seqL [.grp 1 dashItemRE, .rep dashItemRE 1 none true]

/-- Header.tsx 400 replacement helper: split on `/\s-\s/`. -/
def dashSepRE : RE := seqL [reWs, reChar '-', reWs]

/-- Header.tsx 407: `/(\b[^\n]\x7b5,200\x7d)\s+\1/g`. -/
def dupAdjacentRE : RE :=
  seqL [.grp 1 (seqL [.wb, .rep (.cls (fun c => !(c == '\n'))) 5 (some 200) true]),
    plus reWs, .bref 1]

/-- `-\s*[^\n]+`, the bullet item of Header.tsx 328. -/
def bulletItemRE : RE :=
  seqL [reChar '-', star reWs, plus (.cls (fun c => !(c == '\n')))]

/-- Header.tsx 328: `/(?:^|\n)(?:-\s*[^\n]+(?:\n|-\s*[^\n]+)*)/g`. -/
def bulletListRE : RE :=
  seqL [.alt .bos (reChar '\n'), bulletItemRE, star (.alt (reChar '\n') bulletItemRE)]

/-- Header.tsx 340: `/(?:[^\n]\x7b0,100\x7d)(?:\s-\s[^\n]+)\x7b2,\x7d/g`. -/
def inlineDashListRE : RE :=
  seqL [.rep (.cls (fun c => !(c == '\n'))) 0 (some 100) true,
    .rep dashItemRE 2 none true]

/-- Header.tsx 278: `/equipment\s*needs?/i`. -/
def equipTitleRE : RE :=
  seqL [reStrCi (("equipment").toList), star reWs, reStrCi (("need").toList),
    opt (reStrCi (("s").toList))]

/-- Header.tsx 278: `/equipment needs submitted/i`. -/
def equipTitle2RE : RE := reStrCi (("equipment needs submitted").toList)

/-- Header.tsx 364 title test: `/booking request|booking submitted|booking request submitted/i`. -/
def legacyTitleRE : RE :=
  altL [reStrCi (("booking request").toList), reStrCi (("booking submitted").toList),
    reStrCi (("booking request submitted").toList)]

/-- Header.tsx 364 message test: `/booking request|booking submitted|pending approval|requested a booking/i`. -/
def legacyCleanRE : RE :=
  altL [reStrCi (("booking request").toList), reStrCi (("booking submitted").toList),
    reStrCi (("pending approval").toList), reStrCi (("requested a booking").toList)]

/-- Case-insensitive literal global replace (Header.tsx 367-371). -/
def ciReplaceAll (s pat repl : Str) : Str :=
  reReplaceAll (reStrCi pat) s (fun _ _ => repl)

/-- Split a string by a regex separator (JS `String.prototype.split`). -/
def reSplitGo (s : Str) : Nat → List (Nat × Nat × Caps) → List Str
  | pos, [] => [subStr s pos s.length]
  | pos, (b, e, _) :: rest => subStr s pos b :: reSplitGo s e rest

def reSplit (re : RE) (s : Str) : List Str := reSplitGo s 0 (reMatchAll re s)

/-- The lazy JSON-block matches of `/(\x7b[\s\S]*?\x7d)/g` (Header.tsx
96, 297, 314, 387): each match runs from an opening brace to the first
closing brace after it, non-overlapping, left to right. -/
def lazyBlocksFuel : Nat → Str → List Str
  | 0, _ => []
  | fuel + 1, s =>
    match firstIdxChar s '\x7b' with
    | none => []
    | some i =>
      let rest := s.drop (i + 1)
      match firstIdxChar rest '\x7d' with
      | none => []
      | some j =>
        ('\x7b' :: rest.take j ++ ['\x7d']) :: lazyBlocksFuel fuel (rest.drop (j + 1))

def lazyBlocks (s : Str) : List Str := lazyBlocksFuel (s.length + 1) s

/-! ### The display sanitizer (Header.tsx 380-421) -/

/-- Header.tsx 384: unescape `\\n` and `\\"` sequences. -/
def unescapeSeqs (s : Str) : Str :=
  replaceAllSub (replaceAllSub s ['\\', 'n'] ['\n']) ['\\', '"'] ['"']

/-- Header.tsx 387-391: remove every lazy JSON block (the matches are
collected once, then each block string's first occurrence is removed). -/
def stripJsonBlocks (s : Str) : Str :=
  (lazyBlocks s).foldl (fun acc b => replaceFirstSub acc b []) s

/-- Header.tsx 394: strip email addresses, then `trim`. -/
def stripEmails (s : Str) : Str :=
  trimStr (reReplaceAll emailRE s (fun _ _ => []))

/-- Header.tsx 397: remove `"items"` / `items":` tokens, in the
written order. -/
def stripItemsTokens (s : Str) : Str :=
  let s1 := reReplaceAll itemsKeyColonRE s (fun _ _ => [])
  let s2 := reReplaceAll itemsQuoteColonRE s1 (fun _ _ => [])
  let s3 := reReplaceAll itemsQuotedRE s2 (fun _ _ => [])
  reReplaceAll itemsColonRE s3 (fun _ _ => [])

/-- Header.tsx 400-404: collapse a run of dash items into a single
comma-separated list. -/
def collapseDashLists (s : Str) : Str :=
  reReplaceAll dashListRE s (fun m _ =>
    ' ' :: List.intercalate ((", ").toList)
      (((reSplit dashSepRE m).map trimStr).filter (fun p => !p.isEmpty)))

/-- Header.tsx 407: collapse a duplicated adjacent sequence to one copy
(replacement `$1`). -/
def dedupeAdjacent (s : Str) : Str :=
  reReplaceAll dupAdjacentRE s (fun m caps => (capStr s caps 1).getD m)

/-- Header.tsx 410: strip braces, brackets and quotes. -/
def stripPunctChars (s : Str) : Str :=
  s.filter (fun c => !(c == '\x7b' || c == '\x7d' || c == '[' || c == ']' || c == '"'))

/-- Header.tsx 412: collapse whitespace runs, then `trim`. -/
def collapseWs (s : Str) : Str :=
  trimStr (reReplaceAll multiWsRE s (fun _ _ => [' ']))

/-- Header.tsx 414: strip trailing separator punctuation, then `trim`. -/
def stripTrailingSeps (s : Str) : Str :=
  trimStr (reReplaceAll trailingSepRE s (fun _ _ => []))

/-- Header.tsx 416: truncate to 300 characters with an ellipsis. -/
def truncate300 (s : Str) : Str :=
  if 300 < s.length then s.take 300 ++ ("...").toList else s

/-- Source: `sanitizeDisplayText` (Header.tsx 380-421), the steps in
source order. -/
def sanitizeDisplayText (input : Str) : Str :=
  truncate300 (stripTrailingSeps (collapseWs (stripPunctChars (dedupeAdjacent
    (collapseDashLists (stripItemsTokens (stripEmails (stripJsonBlocks
      (unescapeSeqs input)))))))))

/-- JS `try \x7b..\x7d catch \x7b..\x7d` with a value-producing handler:
an error from the body is swallowed and replaced by the handler's value. -/
def jsTryCatch {α : Type} (m : Except JsError α) (h : JsError → α) : Except JsError α :=
  match m with
  | .ok v => .ok v
  | .error e => .ok (h e)

/-- `sanitizeDisplayText` with its top-level `try/catch` explicit: the
catch at Header.tsx 418-420 falls back to the sliced raw input. -/
def sanitizeDisplayTextE (input : Str) : Except JsError Str :=
  jsTryCatch (Except.ok (sanitizeDisplayText input)) (fun _ => input.take 300)

/-! ### Alert records and the equipment-alert parser (Header.tsx 24-376) -/

/-- An alert record as consumed by the pipeline (`createdAt` is the epoch
timestamp `new Date(x).getTime()` evaluates to). -/
structure AlertRec where
  id : Str := []
  title : Str := []
  message : Str := []
  details : Str := []
  structuredNote : Option JValue := none
  userId : Option Str := none
  isRead : Bool := false
  createdAt : Int := 0
  deriving Inhabited

/-- The parser's result record (Header.tsx 375). -/
structure ParsedAlert where
  visibleTitle : Str
  titleRequesterEmail : Option Str
  equipmentList : List Str
  othersText : Option Str
  cleaned : Str
  needsObj : Option JValue
  itemsWithStatus : Option (List (Str × EqStatus))
  deriving Inhabited

/-- Header.tsx 31: `String(message||'') + ' ' + String(details||'')`. -/
def combinedMessage (a : AlertRec) : Str := a.message ++ [' '] ++ a.details

/-- Header.tsx 35-43: strip a trailing `— email` suffix from the title,
reporting the email. -/
def titleEmailSplit (title : Str) : Str × Option Str :=
  match reFindFrom titleEmailRE title 0 with
  | none => (title, none)
  | some (b, e, caps) =>
    match capStr title caps 1 with
    | some em => (trimStr (subStr title 0 b ++ title.drop e), some em)
    | none => (title, none)

/-- Header.tsx 79-92: the `"items"`-anchored block.  On a parse failure
the catch resets `needsObj` to null (even wiping a `structuredNote`). -/
def itemsBlockPhase (needsObj0 : Option JValue) (raw : Str) :
    Except JsError (Option JValue × Str) :=
  match extractJsonAroundKey raw (("\"items\"").toList) with
  | none => Except.ok (needsObj0, raw)
  | some blk =>
    jsTryCatch
      (do
        let parsed ← jsonParse blk
        pure (some parsed, replaceFirstSub raw blk []))
      (fun _ => (none, raw))

/-- The keep condition of Header.tsx 100 (`parsed && (parsed.items ||
parsed.others || typeof parsed === 'object')`). -/
def keepCond (parsed : JValue) : Bool :=
  jvTruthy parsed &&
    (jvTruthyOpt (jvGet parsed (("items").toList)) ||
     jvTruthyOpt (jvGet parsed (("others").toList)) || jvTypeofObject parsed)

/-- Header.tsx 97-106: one candidate block: parse it and keep it when the
condition holds; a parse error selects nothing. -/
def blockSelect (b : Str) : Option JValue :=
  match jsonParse b with
  | Except.ok parsed => if keepCond parsed then some parsed else none
  | Except.error _ => none

/-- Header.tsx 96-107: parse each lazy block, keep the first that parses
and satisfies the condition; parse errors are swallowed. -/
def needsFromBlocks (raw : Str) : Option JValue :=
  (lazyBlocks raw).findSome? blockSelect

/-- Header.tsx 109-111: remove each block string's first occurrence. -/
def removeBlocks (raw : Str) : Str :=
  (lazyBlocks raw).foldl (fun acc b => replaceFirstSub acc b []) raw

/-- Header.tsx 114-120: the legacy `Needs: \x7b...\x7d` marker. -/
def needsLegacyPhase (raw : Str) : Except JsError (Option JValue × Str) :=
  match reFindFrom needsLegacyRE raw 0 with
  | none => Except.ok (none, raw)
  | some (_, _, caps) =>
    match capStr raw caps 1 with
    | none => Except.ok (none, raw)
    | some m1 =>
      jsTryCatch
        (do
          let v ← jsonParse m1
          pure (some v, replaceFirstSub raw m1 []))
        (fun _ => (none, raw))

/-- Header.tsx 123-127: strip leftover quoted pairs, then stray brace
sequences, then all braces. -/
def stripQuotedPairsAndBraces (raw : Str) : Str :=
  let r1 := reReplaceAll quotedPairStripRE raw (fun _ _ => [])
  let r2 := reReplaceAll closeOpenBraceRE r1 (fun _ _ => [' '])
  r2.filter (fun c => !(c == '\x7b' || c == '\x7d'))

/-- Header.tsx 46-129: the whole needs-object extraction, with the outer
catch of line 129 (unreachable in the model: every fallible step inside
is itself caught). -/
def extractionPhase (a : AlertRec) (raw0 : Str) :
    Except JsError (Option JValue × Str) :=
  jsTryCatch
    (do
      let (needs1, raw1) ← itemsBlockPhase a.structuredNote raw0
      let (needs2, raw2) :=
        if needs1.isSome then (needs1, raw1)
        else (needsFromBlocks raw1, removeBlocks raw1)
      let (needs3, raw3) ←
        if needs2.isSome then pure (needs2, raw2)
        else needsLegacyPhase raw2
      pure (needs3, stripQuotedPairsAndBraces raw3))
    (fun _ => (none, raw0))

/-- Header.tsx 146: strip one trailing run of `[.,;]`. -/
def stripTrailingPunct (s : Str) : Str :=
  (s.reverse.dropWhile (fun c => c == '.' || c == ',' || c == ';')).reverse

/-- `replace(/_/g, ' ')` (Header.tsx 138). -/
def underscoresToSpaces (s : Str) : Str := s.map (fun c => if c == '_' then ' ' else c)

/-- Source: `mapToken` (Header.tsx 137-147). -/
def mapToken (rawToken : Str) : Option Str :=
  let raw := trimStr (underscoresToSpaces rawToken)
  let lower := lowerStr raw
  if containsSub lower (("others").toList) then none
  else if lower = ("whiteboard").toList then some (("Whiteboard & Markers").toList)
  else if lower = ("projector").toList then some (("Projector").toList)
  else if lower = ("extension cord").toList ∨ lower = ("extension_cord").toList then
    some (("Extension Cord").toList)
  else if lower = ("hdmi").toList then some (("HDMI Cable").toList)
  else if lower = ("extra chairs").toList ∨ lower = ("extra_chairs").toList then
    some (("Extra Chairs").toList)
  else some (trimStr (stripTrailingPunct raw))

/-- `mapToken(k) || String(k)`: an empty or null mapping falls back to the
key itself (Header.tsx 223/235/248). -/
def labelOr (k : Str) : Str :=
  match mapToken k with
  | some s => if s.isEmpty then k else s
  | none => k

/-- JS object assignment `pairs[k] = v`: overwrite in place or append. -/
def pairsInsert (pairs : List (Str × Str)) (k v : Str) : List (Str × Str) :=
  if pairs.any (fun p => p.1 = k) then
    pairs.map (fun p => if p.1 = k then (k, v) else p)
  else pairs ++ [(k, v)]

/-- Source: `parseQuotedPairs` (Header.tsx 150-160). -/
def parseQuotedPairs (cm : Str) : List (Str × Str) :=
  (reMatchAll quotedPairRE cm).foldl (fun pairs t =>
    match capStr cm t.2.2 1, capStr cm t.2.2 2 with
    | some k, some v => pairsInsert pairs k v
    | _, _ => pairs) []

/-- The bullet separators of Header.tsx 177. -/
def isBulletSep (c : Char) : Bool :=
  c == '\u2022' || c == '\u2023' || c == '\u25E6' || c == '*' || c == '\n'

/-- Source: `parseInlineLabelStatus` (Header.tsx 163-187). -/
def parseInlineLabelStatus (cm raw : Str) : List (Str × Str) :=
  let text := jsOr cm (jsOr raw [])
  let pairs := (reMatchAll inlineLabelStatusRE text).foldl (fun pairs t =>
    match capStr text t.2.2 1, capStr text t.2.2 2 with
    | some k, some v =>
      let key := trimStr k
      if key.isEmpty then pairs else pairsInsert pairs key (trimStr v)
    | _, _ => pairs) []
  if pairs.isEmpty then
    (splitOnPred text isBulletSep []).foldl (fun pairs part =>
      match reFindFrom inlineLabelStatusRE part 0 with
      | some (_, _, caps) =>
        (match capStr part caps 1, capStr part caps 2 with
         | some k, some v => pairsInsert pairs (trimStr k) (trimStr v)
         | _, _ => pairs)
      | none => pairs) []
  else pairs

/-- Header.tsx 191-197: a bare map of string/boolean values becomes the
items map. -/
def normalizeNeeds (needsObj : JValue) : JValue :=
  if !(jvTruthyOpt (jvGet needsObj (("items").toList))) && jvTypeofObject needsObj then
    let maybeKeys := jvKeys needsObj
    let lookLikeItems := !maybeKeys.isEmpty && maybeKeys.all (fun k =>
      match jvGet needsObj k with
      | some (.jstr _) => true
      | some (.jbool _) => true
      | _ => false)
    if lookLikeItems then JValue.jobj [(("items").toList, needsObj)] else needsObj
  else needsObj

/-- Header.tsx 199-213: an items array is mapped through `mapToken`;
`others` entries are dropped with their trailing text captured. -/
def arrayItemsPhase (xs : List JValue) (needsObj : JValue) : List Str × Option Str :=
  let folded := xs.foldl (fun (acc : Str × List (Option Str)) s =>
    let rawTok := jsStringOr s
    let lower := lowerStr rawTok
    if containsSub lower (("others").toList) then
      let trailing := trimStr (reReplaceFirst othersMarkerRE rawTok (fun _ _ => []))
      let othersAcc := if !trailing.isEmpty && acc.1.isEmpty then trailing else acc.1
      (othersAcc, acc.2 ++ [none])
    else (acc.1, acc.2 ++ [mapToken rawTok])) ([], [])
  let mapped := (folded.2.filterMap id).filter (fun s => !s.isEmpty)
  let othersText :=
    if !folded.1.isEmpty then some folded.1
    else
      match jvGet needsObj (("others").toList) with
      | some o => if jvTruthy o then some (trimStr (jsStringOf o)) else none
      | none => none
  (mapped, othersText)

def isJArr : JValue → Bool
  | .jarr _ => true
  | _ => false

/-- Header.tsx 216-226: an items map (object, not array) becomes
per-item statuses. -/
def itemsMapPhase (needsObj : JValue) : Option (List (Str × EqStatus)) :=
  match jvGet needsObj (("items").toList) with
  | none => none
  | some items =>
    if jvTruthy items && jvTypeofObject items && !(isJArr items) then
      match items with
      | .jobj fields => some (fields.map (fun p => (labelOr p.1, classifyJv p.2)))
      | _ => none
    else none

/-- Header.tsx 252-268: the legacy `Requested equipment:` free text. -/
def eqMatchPhase (raw : Str) : List Str × Option Str :=
  match reFindFrom eqMatchRE raw 0 with
  | none => ([], none)
  | some (_, _, caps) =>
    match capStr raw caps 1 with
    | none => ([], none)
    | some m1 =>
      let parts := ((splitRuns m1 (fun c => c == ',' || c == ';')).map
        trimStr).filter (fun p => !p.isEmpty)
      let folded := parts.foldl (fun (acc : Str × List (Option Str)) p =>
        let lower := lowerStr p
        if containsSub lower (("others").toList) then
          let trailing := trimStr (reReplaceFirst othersMarkerRE p (fun _ _ => []))
          let othersAcc := if !trailing.isEmpty && acc.1.isEmpty then trailing else acc.1
          (othersAcc, acc.2 ++ [none])
        else (acc.1, acc.2 ++ [mapToken p])) ([], [])
      let mapped := (folded.2.filterMap id).filter (fun s => !s.isEmpty)
      let extras :=
        match reFindFrom othersTailRE m1 0 with
        | some (_, _, caps2) => capStr m1 caps2 1
        | none => none
      let othersText :=
        if !folded.1.isEmpty then some folded.1
        else
          match extras with
          | some e => if e.isEmpty then none else some (trimStr e)
          | none => none
      (mapped, othersText)

/-- Header.tsx 189-251: everything computed from a present needs object:
the (possibly wrapped) object, the equipment list, the others text and
the items-with-status list with its two fallbacks. -/
def needsBranch (nv : JValue) (cm raw2 : Str) :
    JValue × List Str × Option Str × Option (List (Str × EqStatus)) :=
  let nv1 := normalizeNeeds nv
  let (el, ot) :=
    match jvGet nv1 (("items").toList) with
    | some (.jarr xs) => arrayItemsPhase xs nv1
    | _ => ([], none)
  let iws0 := itemsMapPhase nv1
  let iws1 :=
    match iws0 with
    | some l => some l
    | none =>
      let pairs := parseQuotedPairs cm
      if pairs.isEmpty then none
      else some (pairs.map (fun (p : Str × Str) => (labelOr p.1, classifyOfString p.2)))
  let iws2 :=
    match iws1 with
    | some (x :: xs) => some (x :: xs)
    | other =>
      let pairs2 := parseInlineLabelStatus cm raw2
      if pairs2.isEmpty then other
      else some (pairs2.map (fun (p : Str × Str) => (labelOr p.1, classifyOfString p.2)))
  (nv1, el, ot, iws2)

/-- Header.tsx 271-274: append the `and others` sentinel. -/
def pushAndOthers (equipmentList : List Str) (othersText : Option Str) : List Str :=
  match othersText with
  | some o =>
    if !o.isEmpty && !(equipmentList.contains (("and others").toList)) then
      equipmentList ++ [("and others").toList]
    else equipmentList
  | none => equipmentList

/-- Header.tsx 277-284: normalize the visible title. -/
def normalizeTitle (t : Str) : Str :=
  let t1 :=
    if reTest equipTitleRE t || reTest equipTitle2RE t then
      ("Equipment or Needs Request").toList
    else t
  (titleEmailSplit t1).1

/-- Header.tsx 287: strip booking tags, `Needs:` remnants and `Others:`
fragments, then trim. -/
def cleanedInit (raw : Str) : Str :=
  trimStr (reReplaceFirst othersFragmentRE
    (reReplaceFirst needsRemnantRE
      (reReplaceFirst bookingTagRE raw (fun _ _ => [])) (fun _ _ => []))
    (fun _ _ => []))

/-- Header.tsx 297-302: collapse a block repeated twice (separated by
whitespace) into one copy.  The source builds a dynamic `RegExp` from the
block through an escape whose character class is itself mistyped; for the
metacharacter-free blocks this pipeline produces the search is the
literal `block \s* block`, which is what is modelled. -/
def collapseDoubledBlock (s b : Str) : Str :=
  reReplaceAll (seqL [reStr b, star reWs, reStr b]) s (fun _ _ => b)

/-- Header.tsx 290-308: items-token cleanup and stray-brace removal on
the cleaned text. -/
def cleanedItemsPhase (cleaned : Str) : Str :=
  let c1 := reReplaceAll itemsValueRE cleaned (fun _ _ => [])
  let c2 := reReplaceAll itemsQuoteColonRE c1 (fun _ _ => [])
  let c3 := reReplaceAll itemsQuotedRE c2 (fun _ _ => [])
  let c4 := reReplaceAll itemsColonRE c3 (fun _ _ => [])
  let c5 := (lazyBlocks c4).foldl (fun acc b => collapseDoubledBlock acc b) c4
  let c6 := reReplaceAll closeOpenBraceRE c5 (fun _ _ => [' '])
  let c7 := c6.filter (fun c => !(c == '\x7b' || c == '\x7d'))
  trimStr (reReplaceAll multiWsRE c7 (fun _ _ => [' ']))

/-- `b.replace(/\s+/g, ' ').trim()` (Header.tsx 317/331). -/
def normWs (s : Str) : Str := trimStr (reReplaceAll (plus reWs) s (fun _ _ => [' ']))

/-- Header.tsx 313-325: remove every occurrence of a block whose
normalized text was already seen. -/
def dedupeJsonBlocks (cleaned : Str) : Str :=
  ((lazyBlocks cleaned).foldl (fun (acc : Str × List Str) b =>
    let norm := normWs b
    if acc.2.contains norm then (replaceAllSub acc.1 b [], acc.2)
    else (acc.1, acc.2 ++ [norm])) (cleaned, [])).1

/-- Header.tsx 327-337: remove the first occurrence of a bullet list
whose normalized text was already seen. -/
def dedupeBulletLists (cleaned : Str) : Str :=
  let lists := (reMatchAll bulletListRE cleaned).map (fun t => subStr cleaned t.1 t.2.1)
  (lists.foldl (fun (acc : Str × List Str) bl =>
    let norm := normWs bl
    if acc.2.contains norm then (replaceFirstSub acc.1 bl [], acc.2)
    else (acc.1, acc.2 ++ [norm])) (cleaned, [])).1

/-- Number of non-overlapping literal occurrences. -/
def countOccurFuel : Nat → Str → Str → Nat
  | 0, _, _ => 0
  | fuel + 1, s, pat =>
    if pat.isEmpty then 0
    else
      match indexOfSub s pat with
      | none => 0
      | some i => 1 + countOccurFuel fuel (s.drop (i + pat.length)) pat

def countOccur (s pat : Str) : Nat := countOccurFuel (s.length + 1) s pat

/-- Keep the first occurrence, remove the later ones (Header.tsx 344-349). -/
def keepFirstRemoveRest (s pat : Str) : Str :=
  match indexOfSub s pat with
  | none => s
  | some i => s.take (i + pat.length) ++ replaceAllSub (s.drop (i + pat.length)) pat []

/-- Header.tsx 339-351: dedupe repeated inline dash lists (the occurrence
count and removal use dynamic literal regexes, modelled literally as in
`collapseDoubledBlock`). -/
def dedupeInlineDashLists (cleaned : Str) : Str :=
  let ms := (reMatchAll inlineDashListRE cleaned).map (fun t => subStr cleaned t.1 t.2.1)
  ms.foldl (fun c m => if 1 < countOccur c m then keepFirstRemoveRest c m else c) cleaned

/-- Header.tsx 310-357: duplicate-removal heuristics then whitespace
collapse. -/
def cleanedDedupePhase (cleaned : Str) : Str :=
  let c1 := dedupeJsonBlocks cleaned
  let c2 := dedupeBulletLists c1
  let c3 := dedupeInlineDashLists c2
  trimStr (reReplaceAll multiWsRE c3 (fun _ _ => [' ']))

/-- Header.tsx 359-373: map legacy booking wording to the new flow. -/
def legacyBookingPhase (visibleTitle cleaned : Str) : Str × Str :=
  let lowTitle := lowerStr visibleTitle
  let lowClean := lowerStr cleaned
  if reTest legacyTitleRE lowTitle || reTest legacyCleanRE lowClean then
    let c1 := ciReplaceAll cleaned (("booking request").toList) (("booking").toList)
    let c2 := ciReplaceAll c1 (("has been submitted and is pending approval").toList)
      (("has been scheduled").toList)
    let c3 := ciReplaceAll c2 (("submitted for approval").toList) (("scheduled").toList)
    let c4 := ciReplaceAll c3 (("requested a booking for").toList)
      (("scheduled a booking for").toList)
    let c5 := ciReplaceAll c4 (("requested a booking").toList)
      (("scheduled a booking").toList)
    ((("Booking Scheduled").toList), c5)
  else (visibleTitle, cleaned)

/-- Source: `parseEquipmentAlert` (Header.tsx 24-376), with every
`try/catch` of the source made explicit through `jsTryCatch` and
`JSON.parse` as the fallible primitive. -/
def parseEquipmentAlertE (a : AlertRec) : Except JsError ParsedAlert := do
  let raw0 := jsOr a.message (jsOr a.details [])
  let raw1 ← jsTryCatch (Except.ok (unescapeSeqs raw0)) (fun _ => raw0)
  let cm := combinedMessage a
  let (visibleTitle0, titleRequesterEmail) ←
    jsTryCatch (Except.ok (titleEmailSplit a.title)) (fun _ => (a.title, none))
  let (needsObj, raw2) ← extractionPhase a raw1
  let (needsObjFinal, equipList0, othersText0, iws) :=
    match needsObj with
    | some nv =>
      let r := needsBranch nv cm raw2
      (some r.1, r.2.1, r.2.2.1, r.2.2.2)
    | none =>
      let (el, ot) := eqMatchPhase raw2
      (none, el, ot, none)
  let equipList1 := pushAndOthers equipList0 othersText0
  let visibleTitle1 ←
    jsTryCatch (Except.ok (normalizeTitle visibleTitle0)) (fun _ => visibleTitle0)
  let cleaned0 := cleanedInit raw2
  let cleaned1 ← jsTryCatch (Except.ok (cleanedItemsPhase cleaned0)) (fun _ => cleaned0)
  let cleaned2 ← jsTryCatch (Except.ok (cleanedDedupePhase cleaned1)) (fun _ => cleaned1)
  let (visibleTitle2, cleaned3) ←
    jsTryCatch (Except.ok (legacyBookingPhase visibleTitle1 cleaned2))
      (fun _ => (visibleTitle1, cleaned2))
  pure { visibleTitle := visibleTitle2, titleRequesterEmail := titleRequesterEmail,
         equipmentList := equipList1, othersText := othersText0, cleaned := cleaned3,
         needsObj := needsObjFinal, itemsWithStatus := iws }

/-- The parser as the pure function the rest of the component calls (the
error case is unreachable; see `parseEquipmentAlertE_isOk`). -/
def parseEquipmentAlert (a : AlertRec) : ParsedAlert :=
  match parseEquipmentAlertE a with
  | Except.ok p => p
  | Except.error _ => default

/-! ### The alert reconciler (Header.tsx 623-674) -/

/-- The dedup key of Header.tsx 656-657: the title, `||`, and the trimmed
first line of message/details. -/
def dedupKey (a : AlertRec) : Str :=
  a.title ++ ("||").toList ++ trimStr (firstLine (jsOr a.message (jsOr a.details [])))

/-- Header.tsx 653-669: group by key; a strictly later `createdAt`
replaces the kept record in place, ties keep the earlier-seen one. -/
def dedupGroups (base : List AlertRec) : List (Str × AlertRec) :=
  base.foldl (fun groups a =>
    let key := dedupKey a
    match groups.find? (fun p => p.1 = key) with
    | none => groups ++ [(key, a)]
    | some existing =>
      if existing.2.createdAt < a.createdAt then
        groups.map (fun p => if p.1 = key then (key, a) else p)
      else groups) []

/-- Stable insertion for the descending `createdAt` sort of
Header.tsx 670 (ECMAScript `Array.prototype.sort` is stable). -/
def insertDesc (a : AlertRec) : List AlertRec → List AlertRec
  | [] => [a]
  | b :: rest =>
    if b.createdAt < a.createdAt then a :: b :: rest else b :: insertDesc a rest

def sortByCreatedDesc (l : List AlertRec) : List AlertRec :=
  l.foldl (fun acc a => insertDesc a acc) []

/-- Header.tsx 652-673: deduplicate by key (keeping the latest) and sort
descending by `createdAt`. -/
def dedupeAlerts (base : List AlertRec) : List AlertRec :=
  sortByCreatedDesc ((dedupGroups base).map (·.2))

/-- Header.tsx 636-644: an admin-scope alert is relevant to a non-admin
owner when its text contains the owner's email or its parsed title
requester email equals it. -/
def relevantToOwner (ownerEmail : Str) (a : AlertRec) : Bool :=
  let hay := lowerStr (jsOr a.message (jsOr a.details (jsOr a.title [])))
  if !ownerEmail.isEmpty && containsSub hay ownerEmail then true
  else
    match (parseEquipmentAlert a).titleRequesterEmail with
    | some e => lowerStr e = ownerEmail
    | none => false

/-- Source: the `alertsData` memo (Header.tsx 627-674).  Admins get the
admin feed as-is (line 629); non-admins get their own alerts plus the
relevant admin-scope ones, deduplicated and sorted. -/
def alertsData (isAdmin : Bool)
    (adminAlerts userAlertsFiltered ownerAdminAlerts : List AlertRec)
    (userEmail : Str) : List AlertRec :=
  if isAdmin then adminAlerts
  else
    let ownerEmail := lowerStr userEmail
    let base :=
      if !ownerAdminAlerts.isEmpty && !ownerEmail.isEmpty then
        let relevant := ownerAdminAlerts.filter (relevantToOwner ownerEmail)
        let existingIds := userAlertsFiltered.map (fun x => x.id)
        userAlertsFiltered ++ relevant.filter (fun r => !(existingIds.contains r.id))
      else userAlertsFiltered
    dedupeAlerts base

/-! ### Totality of the pipeline (claim C2) -/

theorem jsTryCatch_isOk {α : Type} (m : Except JsError α) (h : JsError → α) :
    (jsTryCatch m h).isOk = true := by
  unfold jsTryCatch
  cases m <;> rfl

theorem bind_isOk {α β : Type} (m : Except JsError α) (f : α → Except JsError β)
    (hm : m.isOk = true) (hf : ∀ v, (f v).isOk = true) :
    (m >>= f).isOk = true := by
  cases m with
  | ok v => exact hf v
  | error e => exact absurd hm (by simp [Except.isOk, Except.toBool])

theorem extractionPhase_isOk (a : AlertRec) (raw0 : Str) :
    (extractionPhase a raw0).isOk = true := by
  unfold extractionPhase
  exact jsTryCatch_isOk _ _

theorem sanitizeDisplayTextE_isOk (s : Str) : (sanitizeDisplayTextE s).isOk = true := by
  unfold sanitizeDisplayTextE
  exact jsTryCatch_isOk _ _

theorem parseEquipmentAlertE_isOk (a : AlertRec) :
    (parseEquipmentAlertE a).isOk = true := by
  unfold parseEquipmentAlertE
  refine bind_isOk _ _ (jsTryCatch_isOk _ _) (fun raw1 => ?_)
  refine bind_isOk _ _ (jsTryCatch_isOk _ _) (fun tp => ?_)
  obtain ⟨vt, tre⟩ := tp
  refine bind_isOk _ _ (extractionPhase_isOk a raw1) (fun nr => ?_)
  obtain ⟨needsObj, raw2⟩ := nr
  refine bind_isOk _ _ (jsTryCatch_isOk _ _) (fun vt1 => ?_)
  refine bind_isOk _ _ (jsTryCatch_isOk _ _) (fun c1 => ?_)
  refine bind_isOk _ _ (jsTryCatch_isOk _ _) (fun c2 => ?_)
  refine bind_isOk _ _ (jsTryCatch_isOk _ _) (fun tc => ?_)
  obtain ⟨vt2, c3⟩ := tc
  rfl

/-! ### Claim C2: totality / graceful degradation -/

/-- C2: for every alert record (however malformed its strings) and every
string input, the parser and the sanitizer are total: their
explicit-exception models always return `ok`, and a JSON fragment that
fails to parse falls through — the items-block phase swallows the error,
yields no needs object and leaves the text unchanged. -/
theorem c2_pipeline_total :
    (∀ a : AlertRec, (parseEquipmentAlertE a).isOk = true) ∧
    (∀ s : Str, (sanitizeDisplayTextE s).isOk = true) ∧
    (∀ (n0 : Option JValue) (raw blk : Str),
      extractJsonAroundKey raw (("\"items\"").toList) = some blk →
      jsonParse blk = Except.error JsError.syntaxError →
      itemsBlockPhase n0 raw = Except.ok (none, raw)) := by
  refine ⟨parseEquipmentAlertE_isOk, sanitizeDisplayTextE_isOk, ?_⟩
  intro n0 raw blk hex hparse
  unfold itemsBlockPhase
  rw [hex]
  show jsTryCatch (jsonParse blk >>= _) _ = _
  rw [hparse]
  rfl

/-- Witness: the fall-through clause of C2 at a concrete unparseable
block. -/
theorem c2_pipeline_total_witness :
    itemsBlockPhase none (("x\x7b\"items\" oops\x7d").toList) =
      Except.ok (none, ("x\x7b\"items\" oops\x7d").toList) :=
  c2_pipeline_total.2.2 none (("x\x7b\"items\" oops\x7d").toList)
    (("\x7b\"items\" oops\x7d").toList) (by rfl) (by rfl)

/-! ### Claim C5: the tri-state classifier -/

/-- C5: the classifier is total — every value yields exactly one of the
three statuses; a value lower-casing into \x7bprepared, true, yes\x7d maps
to prepared, into \x7bnot available, not_available, false, no\x7d to
not_available, and anything else to pending. -/
theorem c5_classifier_total (v : Str) :
    (classifyOfString v = EqStatus.prepared ∨
     classifyOfString v = EqStatus.not_available ∨
     classifyOfString v = EqStatus.pending) ∧
    (lowerStr v ∈ [("prepared").toList, ("true").toList, ("yes").toList] →
      classifyOfString v = EqStatus.prepared) ∧
    (lowerStr v ∈ [("not available").toList, ("not_available").toList,
        ("false").toList, ("no").toList] →
      classifyOfString v = EqStatus.not_available) ∧
    (lowerStr v ∉ [("prepared").toList, ("true").toList, ("yes").toList] →
     lowerStr v ∉ [("not available").toList, ("not_available").toList,
        ("false").toList, ("no").toList] →
      classifyOfString v = EqStatus.pending) := by
  refine ⟨?_, ?_, ?_, ?_⟩
  · cases hc : classifyOfString v <;> simp [hc]
  · intro h
    simp only [List.mem_cons, List.not_mem_nil, or_false] at h
    unfold classifyOfString
    rcases h with h | h | h <;> rw [h] <;> rfl
  · intro h
    simp only [List.mem_cons, List.not_mem_nil, or_false] at h
    unfold classifyOfString
    rcases h with h | h | h | h <;> rw [h] <;> rfl
  · intro h1 h2
    simp only [List.mem_cons, List.not_mem_nil, or_false, not_or] at h1 h2
    unfold classifyOfString
    rw [if_neg (by tauto), if_neg (by tauto)]

/-! ### Claim C10: `mapToken` and the `others` substring -/

/-- C10: `mapToken` returns null exactly when the normalized token
(underscores to spaces, trimmed, lower-cased) contains the substring
`others` anywhere — so a token like `Brothers chair` is dropped — and
yields a string for every other token. -/
theorem c10_mapToken_others (tok : Str) :
    (containsSub (lowerStr (trimStr (underscoresToSpaces tok)))
        (("others").toList) = true → mapToken tok = none) ∧
    (containsSub (lowerStr (trimStr (underscoresToSpaces tok)))
        (("others").toList) = false → ∃ s, mapToken tok = some s) ∧
    mapToken (("Brothers chair").toList) = none := by
  refine ⟨?_, ?_, by rfl⟩
  · intro h
    simp only [mapToken]
    rw [if_pos h]
  · intro h
    simp only [mapToken]
    rw [if_neg (by simp only [h]; decide)]
    split_ifs <;> exact ⟨_, rfl⟩

/-- Witness for C10: both clauses at concrete tokens. -/
theorem c10_mapToken_others_witness :
    mapToken (("xothersy").toList) = none ∧ ∃ s, mapToken (("chair").toList) = some s :=
  ⟨(c10_mapToken_others (("xothersy").toList)).1 (by decide),
   (c10_mapToken_others (("chair").toList)).2.1 (by decide)⟩

/-! ### Claim C8: the admin-scope feed -/

def c8a : AlertRec :=
  { id := ['1'], title := ("T").toList, message := ("m\nx").toList, createdAt := 1 }

def c8b : AlertRec :=
  { id := ['2'], title := ("T").toList, message := ("m\ny").toList, createdAt := 2 }

/-- C8 counterexample: two admin alerts with equal dedup key and
different timestamps are BOTH returned to an admin viewer — the early
return at Header.tsx 629 precedes the deduplication, so the claimed
"global dedup still applied" is false (dedup would have kept one). -/
theorem c8_admin_not_deduped :
    dedupKey c8a = dedupKey c8b ∧ c8a.createdAt ≠ c8b.createdAt ∧
    alertsData true [c8a, c8b] [] [] [] = [c8a, c8b] ∧
    dedupeAlerts [c8a, c8b] = [c8b] := by
  exact ⟨by decide, by decide, rfl, rfl⟩

/-- C8 (amended): for an admin viewer the reconciler returns the
admin-scope feed exactly as fetched — unfiltered and with no
deduplication; dedup runs only on the non-admin path. -/
theorem c8_admin_feed_as_is
    (adminAlerts userAlertsFiltered ownerAdminAlerts : List AlertRec) (userEmail : Str) :
    alertsData true adminAlerts userAlertsFiltered ownerAdminAlerts userEmail =
      adminAlerts := rfl

/-! ### Claim C6: sanitizer idempotence -/

def c6x : Str := ("abcde abcde abcde").toList

/-- C6 counterexample: the duplicate-collapse step removes one adjacent
copy per pass, so a triple repetition needs two passes:
`sanitize(sanitize(x)) ≠ sanitize(x)` at `x = "abcde abcde abcde"`. -/
theorem c6_sanitize_not_idempotent :
    sanitizeDisplayText (sanitizeDisplayText c6x) ≠ sanitizeDisplayText c6x := by
  have h1 : sanitizeDisplayText c6x = ("abcde abcde").toList := rfl
  have h2 : sanitizeDisplayText (("abcde abcde").toList) = ("abcde").toList := rfl
  rw [h1, h2]
  decide

/-- C6 (amended): the sanitizer is idempotent exactly on inputs whose
sanitized output is a fixed point of each internal step; the
adjacent-duplicate collapse can fail this (one collapse per pass), which
is the only obstruction — when every step fixes `sanitize x`, a second
application changes nothing. -/
theorem c6_sanitize_idempotent_on_fixed (x : Str)
    (h1 : unescapeSeqs (sanitizeDisplayText x) = sanitizeDisplayText x)
    (h2 : stripJsonBlocks (sanitizeDisplayText x) = sanitizeDisplayText x)
    (h3 : stripEmails (sanitizeDisplayText x) = sanitizeDisplayText x)
    (h4 : stripItemsTokens (sanitizeDisplayText x) = sanitizeDisplayText x)
    (h5 : collapseDashLists (sanitizeDisplayText x) = sanitizeDisplayText x)
    (h6 : dedupeAdjacent (sanitizeDisplayText x) = sanitizeDisplayText x)
    (h7 : stripPunctChars (sanitizeDisplayText x) = sanitizeDisplayText x)
    (h8 : collapseWs (sanitizeDisplayText x) = sanitizeDisplayText x)
    (h9 : stripTrailingSeps (sanitizeDisplayText x) = sanitizeDisplayText x)
    (h10 : truncate300 (sanitizeDisplayText x) = sanitizeDisplayText x) :
    sanitizeDisplayText (sanitizeDisplayText x) = sanitizeDisplayText x := by
  set y := sanitizeDisplayText x with hy
  rw [show sanitizeDisplayText y =
      truncate300 (stripTrailingSeps (collapseWs (stripPunctChars (dedupeAdjacent
        (collapseDashLists (stripItemsTokens (stripEmails (stripJsonBlocks
          (unescapeSeqs y))))))))) from rfl]
  rw [h1, h2, h3, h4, h5, h6, h7, h8, h9, h10]

/-- Witness: the amended C6 theorem at a concrete fixed input. -/
theorem c6_sanitize_idempotent_witness :
    sanitizeDisplayText (sanitizeDisplayText (("hello there world").toList)) =
      sanitizeDisplayText (("hello there world").toList) :=
  c6_sanitize_idempotent_on_fixed (("hello there world").toList)
    rfl rfl rfl rfl rfl rfl rfl rfl rfl rfl

/-! ### Claim C9: email removal -/

/-- Is there an email-pattern match anywhere in the string? -/
def containsEmail (s : Str) : Bool := (reFindFrom emailRE s 0).isSome

def c9x : Str := ("bob\"items\":@x.com").toList

/-- C9 counterexample: email removal runs before the items-token
stripping, which can splice a fresh address together — sanitizing
`bob"items":@x.com` yields `bob@x.com`, which matches the email
pattern. -/
theorem c9_email_reintroduced :
    sanitizeDisplayText c9x = ("bob@x.com").toList ∧
    containsEmail (sanitizeDisplayText c9x) = true := ⟨rfl, rfl⟩

/-- No match anywhere means a global replace returns the input. -/
theorem reReplaceAll_no_match (re : RE) (s : Str) (f : Str → Caps → Str)
    (h : reFindFrom re s 0 = none) : reReplaceAll re s f = s := by
  show reReplaceAllAux (s.length + 1 + 1) re s f 0 = s
  rw [reReplaceAllAux, h]
  exact List.drop_zero s

/-- C9 (amended): the email-removal step deletes every match the scan
finds at its stage (and is the identity, up to trimming, when there is
none), but the later items-token and quote/brace stripping can splice a
new address together, so the sanitizer's output is not guaranteed
email-free. -/
theorem c9_email_removal_amended :
    (∀ s : Str, reFindFrom emailRE s 0 = none → stripEmails s = trimStr s) ∧
    stripEmails (("x bob@x.com y").toList) = ("x  y").toList ∧
    sanitizeDisplayText (("see bob@x.com ok").toList) = ("see ok").toList := by
  refine ⟨?_, rfl, rfl⟩
  intro s h
  unfold stripEmails
  rw [reReplaceAll_no_match _ _ _ h]

/-- Witness: the no-match clause of the amended C9 theorem at a concrete
input. -/
theorem c9_email_removal_amended_witness :
    stripEmails (("hello").toList) = trimStr (("hello").toList) :=
  c9_email_removal_amended.1 (("hello").toList) (by rfl)

/-! ### Claim C4: the top-level block scan -/

/-- Characters before the found index do not hold the sought character. -/
theorem firstIdxChar_take :
    ∀ (s : Str) (c : Char) (j : Nat), firstIdxChar s c = some j →
      ∀ x ∈ s.take j, x ≠ c := by
  intro s
  induction s with
  | nil => intro c j h; simp [firstIdxChar] at h
  | cons y rest ih =>
    intro c j h x hx
    simp only [firstIdxChar] at h
    by_cases hy : y = c
    · rw [if_pos hy] at h
      obtain rfl : j = 0 := (Option.some_inj.mp h).symm
      simp at hx
    · rw [if_neg hy] at h
      obtain ⟨j₁, h₁, rfl⟩ := Option.map_eq_some'.mp h
      rw [List.take_succ_cons] at hx
      rcases List.mem_cons.mp hx with rfl | hx
      · exact hy
      · exact ih c j₁ h₁ x hx

/-- Every lazy block runs from an opening brace to the EARLIEST closing
brace after it: nothing between them is a closing brace. -/
theorem lazyBlocksFuel_shape :
    ∀ (fuel : Nat) (s b : Str), b ∈ lazyBlocksFuel fuel s →
      ∃ mid, b = '\x7b' :: mid ++ ['\x7d'] ∧ '\x7d' ∉ mid := by
  intro fuel
  induction fuel with
  | zero => intro s b hb; simp [lazyBlocksFuel] at hb
  | succ n ih =>
    intro s b hb
    rw [lazyBlocksFuel] at hb
    cases h1 : firstIdxChar s '\x7b' with
    | none => rw [h1] at hb; simp at hb
    | some i =>
      rw [h1] at hb
      dsimp only at hb
      cases h2 : firstIdxChar (s.drop (i + 1)) '\x7d' with
      | none => rw [h2] at hb; simp at hb
      | some j =>
        rw [h2] at hb
        dsimp only at hb
        rcases List.mem_cons.mp hb with hb | hb
        · refine ⟨(s.drop (i + 1)).take j, by simpa using hb, ?_⟩
          intro hmem
          exact absurd rfl (firstIdxChar_take _ _ _ h2 _ hmem)
        · exact ih _ _ hb

/-- `List.findSome?` keeps the first hit: a successful search splits the
list into a prefix of misses, the hit, and a remainder. -/
theorem findSome_eq_some_split {α β : Type} (f : α → Option β) :
    ∀ (l : List α) (v : β), l.findSome? f = some v →
      ∃ pre x post, l = pre ++ x :: post ∧ f x = some v ∧ ∀ y ∈ pre, f y = none := by
  intro l
  induction l with
  | nil => intro v h; simp [List.findSome?] at h
  | cons a rest ih =>
    intro v h
    cases hfa : f a with
    | some w =>
      rw [List.findSome?_cons, hfa] at h
      obtain rfl : w = v := Option.some_inj.mp h
      exact ⟨[], a, rest, rfl, hfa, by simp⟩
    | none =>
      rw [List.findSome?_cons, hfa] at h
      obtain ⟨pre, x, post, hl, hx, hpre⟩ := ih v h
      refine ⟨a :: pre, x, post, by simp [hl], hx, ?_⟩
      intro y hy
      rcases List.mem_cons.mp hy with rfl | hy
      · exact hfa
      · exact hpre y hy

/-- A selected block parsed successfully and passed the condition. -/
theorem blockSelect_some (b : Str) (v : JValue) (h : blockSelect b = some v) :
    jsonParse b = Except.ok v ∧ keepCond v = true := by
  unfold blockSelect at h
  cases hp : jsonParse b with
  | ok p =>
    rw [hp] at h
    dsimp only at h
    by_cases hk : keepCond p = true
    · rw [if_pos hk] at h
      obtain rfl : p = v := Option.some_inj.mp h
      exact ⟨rfl, hk⟩
    · rw [if_neg hk] at h
      exact Option.noConfusion h
  | error e =>
    rw [hp] at h
    exact Option.noConfusion h

/-- Modelled from the spec: the scan C4 describes — "ALL balanced
\x7b...\x7d blocks (same brace-depth method applied repeatedly,
non-overlapping, left-to-right)".  This definition is absent from the
source (which uses the lazy regex); at each opening brace it takes the
brace-balanced block when one exists. -/
def balancedBlocksFuel : Nat → Str → List Str
  | 0, _ => []
  | fuel + 1, s =>
    match firstIdxChar s '\x7b' with
    | none => []
    | some i =>
      let rest := s.drop i
      match braceScanLen rest 0 with
      | some n => rest.take n :: balancedBlocksFuel fuel (rest.drop n)
      | none => balancedBlocksFuel fuel (s.drop (i + 1))

/-- Modelled from the spec: see `balancedBlocksFuel`. -/
def balancedBlocks (s : Str) : List Str := balancedBlocksFuel (s.length + 1) s

/-- Modelled from the spec: the selection C4 describes, over balanced
blocks instead of the source's lazy spans. -/
def needsFromBalancedBlocks (raw : Str) : Option JValue :=
  (balancedBlocks raw).findSome? blockSelect

def c4raw : Str := ("x \x7b\"a\":\x7b\"b\":1\x7d\x7d y").toList

/-- C4 counterexample: on nested input the source's scan produces only
the lazy, unbalanced span (first `\x7b` to the nearest `\x7d`), which
fails to parse, so nothing is kept — while the brace-depth scan the
claim describes captures the whole balanced block and keeps it. -/
theorem c4_lazy_not_balanced :
    lazyBlocks c4raw = [("\x7b\"a\":\x7b\"b\":1\x7d").toList] ∧
    needsFromBlocks c4raw = none ∧
    balancedBlocks c4raw = [("\x7b\"a\":\x7b\"b\":1\x7d\x7d").toList] ∧
    needsFromBalancedBlocks c4raw =
      some (JValue.jobj [(['a'], JValue.jobj [(['b'], JValue.jnum ['1'])])]) :=
  ⟨rfl, rfl, rfl, rfl⟩

/-- C4 (amended): the top-level pass scans the text with the non-greedy
regex — each candidate runs from an opening brace to the EARLIEST
following closing brace, so nested blocks are never captured whole — and
attempts `JSON.parse` on the candidates left to right, keeping the first
one that parses and satisfies the items/others/object condition; parse
failures select nothing and are swallowed. -/
theorem c4_scan_amended :
    (∀ (s b : Str), b ∈ lazyBlocks s →
      ∃ mid, b = '\x7b' :: mid ++ ['\x7d'] ∧ '\x7d' ∉ mid) ∧
    (∀ (raw : Str) (v : JValue), needsFromBlocks raw = some v →
      ∃ pre b post, lazyBlocks raw = pre ++ b :: post ∧
        jsonParse b = Except.ok v ∧ keepCond v = true ∧
        ∀ x ∈ pre, blockSelect x = none) ∧
    needsFromBlocks (("a \x7b\"k\":1\x7d b").toList) =
      some (JValue.jobj [(['k'], JValue.jnum ['1'])]) := by
  refine ⟨?_, ?_, rfl⟩
  · intro s b hb
    exact lazyBlocksFuel_shape _ _ _ hb
  · intro raw v h
    obtain ⟨pre, b, post, hl, hb, hpre⟩ := findSome_eq_some_split blockSelect _ _ h
    obtain ⟨hparse, hkeep⟩ := blockSelect_some _ _ hb
    exact ⟨pre, b, post, hl, hparse, hkeep, hpre⟩

/-- Witness: the amended C4 theorem's clauses at concrete inputs. -/
theorem c4_scan_amended_witness :
    (∃ mid, ("\x7by\x7d").toList = '\x7b' :: mid ++ ['\x7d'] ∧ '\x7d' ∉ mid) ∧
    (∃ pre b post, lazyBlocks (("a \x7b\"k\":1\x7d b").toList) = pre ++ b :: post ∧
      jsonParse b = Except.ok (JValue.jobj [(['k'], JValue.jnum ['1'])]) ∧
      keepCond (JValue.jobj [(['k'], JValue.jnum ['1'])]) = true ∧
      ∀ x ∈ pre, blockSelect x = none) :=
  ⟨c4_scan_amended.1 (("x\x7by\x7d").toList) (("\x7by\x7d").toList) (by decide),
   c4_scan_amended.2.1 (("a \x7b\"k\":1\x7d b").toList) _ (by rfl)⟩

/-! ### Claim C3: itemsWithStatus vs equipmentList -/

def c3alert : AlertRec :=
  { message := ("\x7b\"items\":[\"hdmi\"]\x7d \"a\":\"b\"").toList }

/-- C3 counterexample: an alert whose JSON holds a flat items ARRAY while
the message also carries a quoted `"a":"b"` pair ends with BOTH a
non-empty `equipmentList` (from the array) and a non-empty
`itemsWithStatus` (from the quoted-pairs fallback), refuting the claimed
mutual exclusion. -/
theorem c3_both_lists_populated :
    (parseEquipmentAlert c3alert).equipmentList = [("HDMI Cable").toList] ∧
    (parseEquipmentAlert c3alert).itemsWithStatus =
      some [(['a'], EqStatus.pending)] := ⟨rfl, rfl⟩

def c3mapAlert : AlertRec :=
  { message := ("\x7b\"items\":\x7b\"hdmi\":\"prepared\"\x7d\x7d").toList }

/-- C3 (amended): when the needs object's `items` is a key-to-status MAP
(an object, not an array), the equipment list and others text stay
empty, so `itemsWithStatus` alone drives the display; but when `items`
is a flat array and the text also carries quoted (or inline) status
fragments, both lists end up populated — the claimed exclusivity holds
only in the map case, and rendering relies on `itemsWithStatus` taking
precedence. -/
theorem c3_items_map_exclusive :
    (∀ (nv : JValue) (cm raw2 : Str) (fields : List (Str × JValue)),
      jvGet (normalizeNeeds nv) (("items").toList) = some (JValue.jobj fields) →
      (needsBranch nv cm raw2).2.1 = [] ∧ (needsBranch nv cm raw2).2.2.1 = none) ∧
    ((parseEquipmentAlert c3mapAlert).equipmentList = [] ∧
     (parseEquipmentAlert c3mapAlert).othersText = none ∧
     (parseEquipmentAlert c3mapAlert).itemsWithStatus =
       some [(("HDMI Cable").toList, EqStatus.prepared)]) := by
  refine ⟨?_, rfl, rfl, rfl⟩
  intro nv cm raw2 fields hf
  simp only [needsBranch]
  rw [hf]
  exact ⟨rfl, rfl⟩

/-- Witness: the map-case clause of the amended C3 theorem at a concrete
needs object. -/
theorem c3_items_map_exclusive_witness :
    (needsBranch (JValue.jobj [(("items").toList, JValue.jobj [])]) [] []).2.1 = [] ∧
    (needsBranch (JValue.jobj [(("items").toList, JValue.jobj [])]) [] []).2.2.1 = none :=
  c3_items_map_exclusive.1 (JValue.jobj [(("items").toList, JValue.jobj [])]) [] [] []
    (by rfl)

/-! ### Claim C7: deduplication keeps the later record -/

/-- C7: two alerts with the same dedup key (same title and same trimmed
first message line) and different `createdAt` reconcile to exactly one
record — the one with the later timestamp. -/
theorem c7_dedup_keeps_later (a b : AlertRec) (hk : dedupKey a = dedupKey b)
    (hne : a.createdAt ≠ b.createdAt) :
    dedupeAlerts [a, b] = [if a.createdAt < b.createdAt then b else a] := by
  have hgroups : dedupGroups [a, b] =
      if a.createdAt < b.createdAt then [(dedupKey a, b)] else [(dedupKey a, a)] := by
    unfold dedupGroups
    simp only [List.foldl, List.find?, List.append_nil, List.nil_append]
    rw [hk]
    simp only [decide_True, Option.isSome]
    by_cases hlt : a.createdAt < b.createdAt
    · rw [if_pos hlt, if_pos hlt]
      simp [hk]
    · rw [if_neg hlt, if_neg hlt]
  unfold dedupeAlerts
  rw [hgroups]
  by_cases hlt : a.createdAt < b.createdAt
  · rw [if_pos hlt, if_pos hlt]
    rfl
  · rw [if_neg hlt, if_neg hlt]
    rfl

def c7a : AlertRec :=
  { id := ['1'], title := ("Equip").toList, message := ("line one\nrest").toList,
    createdAt := 10 }

def c7b : AlertRec :=
  { id := ['2'], title := ("Equip").toList, message := ("line one\nother").toList,
    createdAt := 20 }

/-- Witness: the C7 theorem at two concrete colliding records. -/
theorem c7_dedup_keeps_later_witness : dedupeAlerts [c7a, c7b] = [c7b] := by
  have h := c7_dedup_keeps_later c7a c7b (by decide) (by decide)
  rwa [if_pos (by decide)] at h

end Orbit
